import Mathlib

/-!
Verification development for the sb3-diff semantic diff engine.

The definitions below are shallow embeddings of the TypeScript sources
(text-diff.ts, script-parser.ts, diff.ts, fingerprint.ts, normalizer.ts,
parser.ts and the CLI reconstruct command).  JavaScript machine integers
are modelled as `Int` with explicit 32-bit wrapping where the source
masks (`hash & hash`), and the `undefined`/`NaN` poisoning behaviour of
JS arithmetic is modelled explicitly where the source can produce it.
-/

namespace Sb3

set_option maxRecDepth 8192

/-!
## Line diff (text-diff.ts)

`myersDiff` manipulates JS numbers that can become `undefined` (a read of
an absent `Map` key through the non-null assertion `V.get(k)!`) or `NaN`
(arithmetic on `undefined`).  In every operation this function performs,
`undefined` and `NaN` behave identically: arithmetic yields `NaN` and
every `<`, `>=` comparison yields `false`.  We therefore model both by a
single `poison` value.
-/

inductive JsNum where
  | int (n : Int)
  | poison
deriving DecidableEq, Repr

/-- `x + 1` on a JS number (NaN-propagating). -/
def JsNum.add1 : JsNum → JsNum
  | .int n => .int (n + 1)
  | .poison => .poison

/-- `x - k` on a JS number (NaN-propagating). -/
def JsNum.subK : JsNum → Int → JsNum
  | .int n, k => .int (n - k)
  | .poison, _ => .poison

/-- `x < n` against a genuine integer; `undefined`/`NaN` compare false. -/
def JsNum.ltInt : JsNum → Int → Bool
  | .int v, n => v < n
  | .poison, _ => false

/-- `x >= n` against a genuine integer; `undefined`/`NaN` compare false. -/
def JsNum.geInt : JsNum → Int → Bool
  | .int v, n => v ≥ n
  | .poison, _ => false

/-- `x < y` between two JS numbers; false if either is poisoned. -/
def JsNum.ltJ : JsNum → JsNum → Bool
  | .int a, .int b => a < b
  | _, _ => false

/-- `V.get(k)!` on a JS `Map`: an absent key yields `undefined` (poison).
A JS `Map` holds each key at most once; the association list is scanned
for the unique entry. -/
def vget (V : List (Int × JsNum)) (k : Int) : JsNum :=
  match V with
  | [] => .poison
  | p :: rest => if p.1 = k then p.2 else vget rest k

/-- `V.set(k, v)` on a JS `Map`: replace the entry in place if the key is
present, otherwise append it. -/
def vset (V : List (Int × JsNum)) (k : Int) (v : JsNum) : List (Int × JsNum) :=
  match V with
  | [] => [(k, v)]
  | p :: rest => if p.1 = k then (k, v) :: rest else p :: vset rest k v

/-- `a[x]` on a JS array: out-of-range reads yield `undefined` (`none`). -/
def jsIndex (a : List String) (x : Int) : Option String :=
  if h : 0 ≤ x ∧ x.toNat < a.length then some (a.get ⟨x.toNat, h.2⟩) else none

/-- `a[x] === b[y]` (strict equality; `undefined === undefined` is true). -/
def jsStrEq : Option String → Option String → Bool
  | some s, some t => s == t
  | none, none => true
  | _, _ => false

/-- The diagonal move of `myersDiff`:
`while (x < N && y < M && a[x] === b[y]) { x++; y++ }`, on genuine
integers.  The fuel `(N - x).toNat` is exact: the guard demands `x < N`,
so the loop runs at most that many times and the run is never cut short. -/
def snakeGo (a b : List String) (N M : Int) : Nat → Int → Int → Int × Int
  | 0, x, y => (x, y)
  | f + 1, x, y =>
    if x < N && y < M && jsStrEq (jsIndex a x) (jsIndex b y) then
      snakeGo a b N M f (x + 1) (y + 1)
    else (x, y)

/-- The diagonal move on possibly-poisoned values: with `x` poisoned the
guard `x < N` is false and the loop body never runs. -/
def snake (a b : List String) (x y : JsNum) : JsNum × JsNum :=
  match x, y with
  | .int xv, .int yv =>
      let (x2, y2) := snakeGo a b a.length b.length ((a.length : Int) - xv).toNat xv yv
      (.int x2, .int y2)
  | x, y => (x, y)

/-- One `keep`/`add`/`remove` line of the edit script. -/
structure Change where
  type : String
  line : String
deriving DecidableEq, Repr

/-- Trace rows of `myersDiff` (`trace: Map<number, Map<number, number>>`). -/
abbrev Trace := List (Int × List (Int × JsNum))

/-- Loop state of `myersDiff`: the `V` map, the trace, and - once the end
of both sequences is reached - the trace snapshot passed to
`reconstructEditScript` (JS returns at that point; later iterations are
skipped). -/
structure MD where
  V : List (Int × JsNum)
  trace : Trace
  found : Option Trace

/-- The inner `k` loop domain: `for (let k = -d; k <= d; k += 2)`. -/
def kRange (d : Int) : List Int :=
  (List.range (d.toNat + 1)).map (fun i => -d + 2 * (i : Int))

/-- One `(d, k)` iteration of the forward loop of `myersDiff`. -/
def mdStep (a b : List String) (N M : Int) (st : MD) (d k : Int) : MD :=
  match st.found with
  | some _ => st
  | none =>
    let down := (k == -d) || ((k != d) && JsNum.ltJ (vget st.V (k - 1)) (vget st.V (k + 1)))
    let x0 := if down then vget st.V (k + 1) else (vget st.V (k - 1)).add1
    let y0 := x0.subK k
    let (x, y) := snake a b x0 y0
    let V1 := vset st.V k x
    let tr0 := if st.trace.any (fun p => p.1 == d) then st.trace else st.trace ++ [(d, [])]
    let tr1 := tr0.map (fun p => if p.1 == d then (d, vset p.2 k x) else p)
    if x.geInt N && y.geInt M then
      { V := V1, trace := tr1, found := some tr1 }
    else
      { V := V1, trace := tr1, found := none }

/-- Inner while loop of `reconstructEditScript` (diagonal back-walk),
bounded by `x`: each iteration decrements `x`. -/
def reconDiag (a : List String) : Nat → JsNum → JsNum → JsNum → JsNum →
    List Change → (JsNum × JsNum × List Change)
  | 0, x, y, _, _, script => (x, y, script)
  | f + 1, x, y, prevX, prevY, script =>
    match x, y with
    | .int xv, .int yv =>
      if (JsNum.ltJ prevX (.int xv)) && (JsNum.ltJ prevY (.int yv)) then
        reconDiag a f (.int (xv - 1)) (.int (yv - 1)) prevX prevY
          (⟨"keep", (jsIndex a (xv - 1)).getD ""⟩ :: script)
      else (x, y, script)
    | x, y => (x, y, script)

/-- `reconstructEditScript` from text-diff.ts.  Never reached in any run
(the forward loop never sets `found`, see `myersDiff_eq_nil`); on a
missing trace row the JS original would additionally throw, modelled here
by reading an empty row. -/
def reconRow (trace : Trace) (d : Int) : List (Int × JsNum) :=
  match trace.find? (fun p => p.1 == d) with
  | some p => p.2
  | none => []

def reconStep (a b : List String) (trace : Trace)
    (st : JsNum × JsNum × List Change) (d : Int) : JsNum × JsNum × List Change :=
  match st.1, st.2.1 with
  | .int xv, .int yv =>
    let k := xv - yv
    let row := reconRow trace d
    let prevK := if (row.find? (fun p => p.1 == k - 1)).isSome then k - 1 else k + 1
    let prevX := vget row prevK
    let prevY := prevX.subK prevK
    let res := reconDiag a (xv.toNat + 1) (.int xv) (.int yv) prevX prevY st.2.2
    match res.1, res.2.1 with
    | .int xv1, .int yv1 =>
      if JsNum.ltJ prevX (.int xv1) then
        (.int (xv1 - 1), .int yv1, ⟨"remove", (jsIndex a (xv1 - 1)).getD ""⟩ :: res.2.2)
      else if JsNum.ltJ prevY (.int yv1) then
        (.int xv1, .int (yv1 - 1), ⟨"add", (jsIndex b (yv1 - 1)).getD ""⟩ :: res.2.2)
      else res
    | _, _ => res
  | _, _ => st

def reconstructEditScript (a b : List String) (trace : Trace) (N M MAX : Int) : List Change :=
  let ds := ((List.range (MAX.toNat + 1)).map (fun i => MAX - (i : Int)))
  (ds.foldl (reconStep a b trace) (.int N, .int M, [])).2.2

/-- The iteration domain of the two nested forward loops of `myersDiff`:
`for (let d = 0; d <= MAX; d++) for (let k = -d; k <= d; k += 2)`. -/
def mdPairs (MAX : Nat) : List (Int × Int) :=
  (List.range (MAX + 1)).flatMap (fun d => (kRange (d : Int)).map (fun k => ((d : Int), k)))

/-- The forward loop of `myersDiff`, started from `V.set(0, 0)` exactly
as in the source. -/
def mdRun (a b : List String) : MD :=
  (mdPairs (a.length + b.length)).foldl
    (fun st p => mdStep a b (a.length : Int) (b.length : Int) st p.1 p.2)
    ⟨[(0, .int 0)], [], none⟩

/-- `myersDiff` from text-diff.ts: run the forward loop; on success
reconstruct the edit script, otherwise hit the `return []` fallback. -/
def myersDiff (a b : List String) : List Change :=
  match (mdRun a b).found with
  | some tr =>
      reconstructEditScript a b tr (a.length : Int) (b.length : Int)
        ((a.length + b.length : Nat) : Int)
  | none => []

/-- Result of `diffText`. -/
structure TextDiffResult where
  added : Nat
  removed : Nat
  changes : List Change
deriving DecidableEq, Repr

/-- `diffText` from text-diff.ts: split on newlines, run `myersDiff`,
count `add` and `remove` operations. -/
def diffText (oldText newText : String) : TextDiffResult :=
  let changes := myersDiff (oldText.splitOn "\n") (newText.splitOn "\n")
  let counts := changes.foldl
    (fun (p : Nat × Nat) c =>
      if c.type == "add" then (p.1 + 1, p.2)
      else if c.type == "remove" then (p.1, p.2 + 1)
      else p) (0, 0)
  ⟨counts.1, counts.2, changes⟩

/-!
## JSON values

Project data (inputs, fields, mutation, variables, lists, costumes,
sounds) is arbitrary JSON; the engine compares such data through
`JSON.stringify`.  `J` models a JSON value, plus the JS `undefined`
(which `JSON.stringify` drops from objects and renders as `null` inside
arrays).  Distinct `J` values have distinct plain stringifications, so
`=` on `J` is the stringify-comparison of the source.
-/

inductive J where
  | null
  | undef
  | jb (b : Bool)
  | jn (n : Int)
  | js (s : String)
  | ja (elems : List J)
  | jo (fields : List (String × J))

mutual

/-- Structural equality of JSON values; models JS `===` / SameValueZero
on the primitive values that occur as asset identities and map keys in
sb3 data (reference equality of distinct objects is out of scope and
unused by the modelled comparisons). -/
def jeq : J → J → Bool
  | .null, .null => true
  | .undef, .undef => true
  | .jb a, .jb c => a == c
  | .jn a, .jn c => a == c
  | .js a, .js c => a == c
  | .ja a, .ja c => jeqList a c
  | .jo a, .jo c => jeqFields a c
  | _, _ => false

def jeqList : List J → List J → Bool
  | [], [] => true
  | a :: r, c :: r2 => jeq a c && jeqList r r2
  | _, _ => false

def jeqFields : List (String × J) → List (String × J) → Bool
  | [], [] => true
  | (k, v) :: r, (k2, v2) :: r2 => k == k2 && jeq v v2 && jeqFields r r2
  | _, _ => false

end

/-- JSON string escaping as performed by `JSON.stringify`. -/
def escChar (c : Char) : String :=
  if c = Char.ofNat 34 then "\\\""
  else if c = Char.ofNat 92 then "\\\\"
  else if c = Char.ofNat 8 then "\\b"
  else if c = Char.ofNat 12 then "\\f"
  else if c = Char.ofNat 10 then "\\n"
  else if c = Char.ofNat 13 then "\\r"
  else if c = Char.ofNat 9 then "\\t"
  else if c.toNat < 32 then
    "\\u" ++ String.mk (List.replicate (4 - (Nat.toDigits 16 c.toNat).length) '0')
      ++ String.mk (Nat.toDigits 16 c.toNat)
  else String.singleton c

def quoteStr (s : String) : String :=
  "\"" ++ String.join (s.data.map escChar) ++ "\""

mutual

/-- `JSON.stringify(v)` (no replacer, no spacing).  The modelled call
sites never pass a top-level `undefined`; it is rendered here only for
totality. -/
def stringifyPlain : J → String
  | .null => "null"
  | .undef => "undefined"
  | .jb b => if b then "true" else "false"
  | .jn n => toString n
  | .js s => quoteStr s
  | .ja l => "[" ++ String.intercalate "," (stringifyElems l) ++ "]"
  | .jo fs => "\x7b" ++ String.intercalate "," (stringifyFields fs) ++ "\x7d"

/-- Array elements: `undefined` serializes as `null`. -/
def stringifyElems : List J → List String
  | [] => []
  | e :: rest =>
    (match e with
     | .undef => "null"
     | v => stringifyPlain v) :: stringifyElems rest

/-- Object fields: entries whose value is `undefined` are dropped. -/
def stringifyFields : List (String × J) → List String
  | [] => []
  | (k, v) :: rest =>
    match v with
    | .undef => stringifyFields rest
    | v => (quoteStr k ++ ":" ++ stringifyPlain v) :: stringifyFields rest

end

mutual

/-- The JS `ToString` conversion used by the default `Array.sort`
comparator: arrays join with commas (null/undefined become the empty
string), objects render as `[object Object]`. -/
def jsToStringPrim : J → String
  | .null => "null"
  | .undef => "undefined"
  | .jb b => if b then "true" else "false"
  | .jn n => toString n
  | .js s => s
  | .ja l => String.intercalate "," (jsToStringElems l)
  | .jo _ => "[object Object]"

def jsToStringElems : List J → List String
  | [] => []
  | e :: rest =>
    (match e with
     | .null => ""
     | .undef => ""
     | v => jsToStringPrim v) :: jsToStringElems rest

end

/-- Sort key of one `Object.entries` pair under the default comparator:
the entry is the two-element array `[key, value]`, and the default
comparator stringifies it (`key + "," + ToString(value)`). -/
def entrySortKey (p : String × J) : String :=
  p.1 ++ "," ++
    (match p.2 with
     | .null => ""
     | .undef => ""
     | v => jsToStringPrim v)

/-- JS string comparison (`<` on UTF-16 code units; all modelled strings
are BMP, where code units and code points agree). -/
def charListLt : List Char → List Char → Bool
  | [], [] => false
  | [], _ :: _ => true
  | _ :: _, [] => false
  | a :: r, b :: r2 =>
    if a.toNat < b.toNat then true
    else if b.toNat < a.toNat then false
    else charListLt r r2

def strLt (a b : String) : Bool := charListLt a.data b.data

/-- Stable insertion into a sorted list (equal keys keep their original
relative order, as JS `Array.sort` is stable). -/
def insertSorted (key : α → String) (x : α) : List α → List α
  | [] => [x]
  | y :: r => if strLt (key x) (key y) then x :: y :: r else y :: insertSorted key x r

def sortByKey (key : α → String) (l : List α) : List α :=
  l.foldl (fun acc x => insertSorted key x acc) []

mutual

/-- The effect of the `sortKeys` replacer of fingerprint.ts: every
(non-array) object has its entries sorted by
`Object.entries(value).sort()`.  The replacer runs top-down on unsorted
children, but `entrySortKey` is invariant under sorting nested objects
(objects render as `[object Object]` regardless of field order), so
sorting bottom-up is equivalent. -/
def jSortAll : J → J
  | .null => .null
  | .undef => .undef
  | .jb b => .jb b
  | .jn n => .jn n
  | .js s => .js s
  | .ja l => .ja (jSortAllList l)
  | .jo fs => .jo (sortByKey entrySortKey (jSortAllFields fs))

def jSortAllList : List J → List J
  | [] => []
  | e :: r => jSortAll e :: jSortAllList r

def jSortAllFields : List (String × J) → List (String × J)
  | [] => []
  | (k, v) :: r => (k, jSortAll v) :: jSortAllFields r

end

/-- `JSON.stringify(v, sortKeys)` from fingerprint.ts. -/
def stringifySorted (v : J) : String :=
  stringifyPlain (jSortAll v)

/-!
## The 32-bit rolling hash

Both fingerprint.ts (`simpleHash`) and script-parser.ts
(`generateFingerprint`) use
`hash = ((hash << 5) - hash) + charCodeAt(i); hash = hash & hash`.
`<<` and `&` coerce to signed 32-bit integers; the subtraction and
addition in between are exact (the magnitudes stay far below 2^53).
Characters of the hashed strings are BMP code points, where
`charCodeAt` agrees with the code point.
-/

def toInt32 (x : Int) : Int := (x + 2 ^ 31) % 2 ^ 32 - 2 ^ 31

def hashStep (h : Int) (c : Nat) : Int := toInt32 (toInt32 (h * 32) - h + c)

def hashString (s : String) : Int :=
  s.data.foldl (fun h c => hashStep h c.toNat) 0

/-- `Math.abs(hash).toString(16)`. -/
def hexAbs (h : Int) : String := String.mk (Nat.toDigits 16 h.natAbs)

/-- `simpleHash` from fingerprint.ts (no padding). -/
def simpleHash (s : String) : String := hexAbs (hashString s)

/-- `generateFingerprint` from script-parser.ts (padded to 8 with `'0'`;
despite the source comment it does not truncate). -/
def generateFingerprint8 (text : String) : String :=
  let hx := hexAbs (hashString text)
  String.mk (List.replicate (8 - hx.length) '0') ++ hx

/-!
## Raw blocks and the script parser (script-parser.ts)
-/

/-- `Record` lookup (`obj[key]`): JS object keys are unique; the list is
scanned for the entry. -/
def alookup (l : List (String × α)) (k : String) : Option α :=
  match l with
  | [] => none
  | p :: r => if p.1 = k then some p.2 else alookup r k

/-- `String.prototype.trimEnd`. -/
def strTrimEnd (s : String) : String :=
  String.mk ((s.data.reverse.dropWhile Char.isWhitespace).reverse)

/-- `String.prototype.trim`. -/
def strTrim (s : String) : String :=
  String.mk (((s.data.dropWhile Char.isWhitespace).reverse.dropWhile
    Char.isWhitespace).reverse)

/-- Global literal replacement (`info.replace(new RegExp(escaped, "g"),
rep)`), structurally recursive with one fuel unit per source character -
exact, since every step consumes at least one character (the patterns of
the source, quoted block ids, are never empty). -/
def replaceAllGo (pat rep : List Char) : Nat → List Char → List Char
  | 0, s => s
  | _ + 1, [] => []
  | f + 1, c :: rest =>
    if pat.isPrefixOf (c :: rest) then
      rep ++ replaceAllGo pat rep f ((c :: rest).drop pat.length)
    else c :: replaceAllGo pat rep f rest

def replaceAll (s pat rep : String) : String :=
  String.mk (replaceAllGo pat.data rep.data s.data.length s.data)

/-- `String.prototype.startsWith`. -/
def strStartsWith (s p : String) : Bool := p.data.isPrefixOf s.data

/-- `String.prototype.split("-")`. -/
def splitDashGo : List Char → List Char → List String
  | [], cur => [String.mk cur.reverse]
  | c :: rest, cur =>
    if c = Char.ofNat 45 then String.mk cur.reverse :: splitDashGo rest []
    else splitDashGo rest (c :: cur)

def splitDash (s : String) : List String := splitDashGo s.data []

/-- `"\t".repeat(n)`.  The source only ever calls this with `n ≥ 0`
(`depth` is `-1` only at top level, where `depth + 1 = 0` and the
`else` prefix that would use bare `depth` is disabled). -/
def tabs (n : Int) : String := String.mk (List.replicate n.toNat (Char.ofNat 9))

/-- A raw sb3 block record (types.ts `RawBlock`; the UI-only fields
`parent`, `x`, `y` do not influence any modelled computation and are
omitted). -/
structure RawBlockM where
  opcode : String
  next : Option String
  inputs : List (String × J)
  fields : List (String × J)
  mutation : Option J
  shadow : Bool
  topLevel : Bool

/-- `some(value)` from script-parser.ts: empty for `undefined`/`null`,
empty for `"\x7b\x7d"` and `"[]"`, otherwise `JSON.stringify(value)`. -/
def someVal (v : Option J) : String :=
  match v with
  | none => ""
  | some .undef => ""
  | some .null => ""
  | some w =>
    let s := stringifyPlain w
    if s = "\x7b\x7d" ∨ s = "[]" then "" else s

/-- The id-scrubbing loop: every quoted occurrence of every block id of
the map is replaced by `"id"` (a global literal-regex replace per key,
in `Object.keys` order). -/
def idReplace (blocks : List (String × RawBlockM)) (info : String) : String :=
  blocks.foldl (fun s p => replaceAll s ("\"" ++ p.1 ++ "\"") "\"id\"") info

/-- The serialized-and-scrubbed `info` string of one block. -/
def blockInfo (blocks : List (String × RawBlockM)) (b : RawBlockM) : String :=
  let raw := someVal (some (.jo b.inputs)) ++ " " ++ someVal (some (.jo b.fields))
      ++ " " ++ someVal b.mutation
  idReplace blocks (strTrim raw)

/-- One line of the flattened script rendering (types.ts `BlockText`;
the `original` field is a display-only copy of the raw record and is
inspected by no modelled computation). -/
structure BlockTextM where
  text : String
  fingerprint : String
  depth : Int
deriving DecidableEq, Repr

/-- A rendered script (types.ts `ScriptText`).  `tag` models JS object
identity: every script object produced by a parse is distinct, and the
heuristic matcher removes claimed scripts by identity (`s !== bestMatch`). -/
structure ScriptTextM where
  text : String
  fingerprint : String
  blocks : List BlockTextM
  topId : String
  tag : Nat
deriving DecidableEq, Repr

/-- The only JS exception the modelled code can raise: a `TypeError`
from reading a property of `undefined` (e.g. `block.inputs` after a
lookup of a missing block id). -/
inductive JsErr where
  | typeError
deriving DecidableEq, Repr

/-- Sequencing for fuel-limited, exception-carrying computations:
`none` models non-termination of the source, `some (.error e)` a thrown
exception. -/
def obind (x : Option (Except JsErr α)) (f : α → Option (Except JsErr β)) :
    Option (Except JsErr β) :=
  match x with
  | none => none
  | some (.error e) => some (.error e)
  | some (.ok a) => f a

/-- A structural reference in an input slot:
`Array.isArray(slot) && typeof slot[1] === "string"`. -/
def refOf (inputs : List (String × J)) (slot : String) : Option String :=
  match alookup inputs slot with
  | some (.ja l) =>
    match l.get? 1 with
    | some (.js s) => some s
    | _ => none
  | _ => none

/-- `parseScriptWithBlocks` from script-parser.ts: the `while (currentId)`
chain walk with recursive descent into `CONDITION`, `SUBSTACK`, and
`SUBSTACK2`.  `acc`/`accB` accumulate `output` and `blocks`; one unit of
fuel is consumed per visited block, so a cyclic graph (on which the
source loops forever) yields `none` for every fuel.  A missing block id
makes the source read `block.inputs` of `undefined`: a thrown
`TypeError`. -/
def parseSWBgo (blocks : List (String × RawBlockM)) :
    Option String → Int → Bool → String → List BlockTextM → Nat →
    Option (Except JsErr (String × List BlockTextM))
  | none, _, _, acc, accB, _ => some (.ok (acc, accB))
  | some _, _, _, _, _, 0 => none
  | some id, depth, elseC, acc, accB, fuel + 1 =>
    match alookup blocks id with
    | none => some (.error .typeError)
    | some b =>
      let acc1 := if elseC then acc ++ tabs depth ++ "else\n" else acc
      let info := blockInfo blocks b
      let btextFull := tabs (depth + 1) ++ b.opcode ++ " " ++ info ++ "\n"
      let acc2 := acc1 ++ btextFull
      let trimmed := strTrim btextFull
      let accB2 := accB ++ [⟨trimmed, generateFingerprint8 trimmed, depth + 1⟩]
      let condRes :=
        match refOf b.inputs "CONDITION" with
        | some cid =>
          obind (parseSWBgo blocks (some cid) 0 false "" [] fuel) fun r =>
            some (.ok (strTrimEnd acc2 ++ r.1, accB2 ++ r.2))
        | none => some (.ok (acc2, accB2))
      obind condRes fun s2 =>
      let subRes :=
        match refOf b.inputs "SUBSTACK" with
        | some sid =>
          obind (parseSWBgo blocks (some sid) (depth + 1) false "" [] fuel) fun r =>
            some (.ok (s2.1 ++ r.1, s2.2 ++ r.2))
        | none => some (.ok s2)
      obind subRes fun s3 =>
      let sub2Res :=
        match refOf b.inputs "SUBSTACK2" with
        | some sid =>
          obind (parseSWBgo blocks (some sid) (depth + 1) true "" [] fuel) fun r =>
            some (.ok (s3.1 ++ r.1, s3.2 ++ r.2))
        | none => some (.ok s3)
      obind sub2Res fun s4 =>
      parseSWBgo blocks b.next depth elseC s4.1 s4.2 fuel

/-- `getTopLevelIds` from script-parser.ts. -/
def getTopLevelIds (blocks : List (String × RawBlockM)) : List String :=
  (blocks.filter (fun p => p.2.topLevel)).map (fun p => p.1)

/-- The per-top-id loop of `parseSpriteScripts`; `idx` numbers the
produced script objects (JS object identity). -/
def parseScriptsGo (blocks : List (String × RawBlockM)) (fuel : Nat) :
    List String → Nat → Option (Except JsErr (List ScriptTextM))
  | [], _ => some (.ok [])
  | tid :: rest, idx =>
    obind (parseSWBgo blocks (some tid) (-1) false "" [] fuel) fun r =>
    obind (parseScriptsGo blocks fuel rest (idx + 1)) fun ss =>
    some (.ok (⟨strTrim r.1, generateFingerprint8 (strTrim r.1), r.2, tid, idx⟩ :: ss))

/-- `parseSpriteScripts` from script-parser.ts: parse every top-level
id, then sort by fingerprint.  The source sorts with `localeCompare`,
which on the hex-digit alphabet `0-9a-f` of fingerprints agrees with
code-unit order; the sort is stable. -/
def parseSpriteScripts (blocks : List (String × RawBlockM)) (fuel : Nat) :
    Option (Except JsErr (List ScriptTextM)) :=
  obind (parseScriptsGo blocks fuel (getTopLevelIds blocks) 0) fun ss =>
  some (.ok (sortByKey ScriptTextM.fingerprint ss))

/-!
## Script matching (BlockDiffEngine.matchScripts, diff.ts lines 172-242)
-/

/-- `Map.set` for the fingerprint → script maps: replace in place if the
key is present (keeping its position), else append. -/
def mapSetS (m : List (String × ScriptTextM)) (k : String) (v : ScriptTextM) :
    List (String × ScriptTextM) :=
  match m with
  | [] => [(k, v)]
  | p :: r => if p.1 = k then (k, v) :: r else p :: mapSetS r k v

/-- `new Map(scripts.map(s => [s.fingerprint, s]))`: sequential `set`;
duplicate fingerprints collapse to one entry holding the last script. -/
def mkFpMap (ss : List ScriptTextM) : List (String × ScriptTextM) :=
  ss.foldl (fun m s => mapSetS m s.fingerprint s) []

/-- Exact phase of `matchScripts`: iterate the old map entries; on a
fingerprint present in the new map, record the pair, filter both
unmatched lists by that fingerprint, and delete it from the new map. -/
def phase1 : List (String × ScriptTextM) → List (String × ScriptTextM) →
    List ScriptTextM → List ScriptTextM → List (ScriptTextM × ScriptTextM) →
    List (ScriptTextM × ScriptTextM) × List ScriptTextM × List ScriptTextM
  | [], _, uo, un, acc => (acc, uo, un)
  | (f, o) :: es, nm, uo, un, acc =>
    match alookup nm f with
    | some n =>
      phase1 es (nm.filter (fun p => p.1 != f))
        (uo.filter (fun s => s.fingerprint != f))
        (un.filter (fun s => s.fingerprint != f))
        (acc ++ [(o, n)])
    | none => phase1 es nm uo un acc

/-- The acceptance test of the heuristic fallback: relative size ratio
above `0.7` and identical first 20 characters.
`min/max > 0.7` on JS doubles is modelled by the exact rational
comparison `10*min > 7*max`; the two agree for every length below
`2^53` representable as a JS string length (and `0/0` is `NaN`, which
compares false, matching `10*0 > 7*0`). -/
def simPred (o n : ScriptTextM) : Bool :=
  let minL := Nat.min o.text.length n.text.length
  let maxL := Nat.max o.text.length n.text.length
  (10 * minL > 7 * maxL) && (String.mk (o.text.data.take 20) == String.mk (n.text.data.take 20))

/-- Heuristic fallback phase of `matchScripts`: for each remaining old
script scan the remaining new pool, accept the first candidate passing
`simPred` (greedy first-fit, `break`), and remove it from the pool by
object identity. -/
def phase2 : List ScriptTextM → List ScriptTextM →
    List (ScriptTextM × ScriptTextM) × List ScriptTextM
  | [], pool => ([], pool)
  | o :: os, pool =>
    match pool.find? (fun n => simPred o n) with
    | some n =>
      let r := phase2 os (pool.filter (fun s => s != n))
      ((o, n) :: r.1, r.2)
    | none => phase2 os pool

/-- The `matchScripts` result record. -/
structure MatchRes where
  matched : List (ScriptTextM × ScriptTextM)
  unmatchedOld : List ScriptTextM
  unmatchedNew : List ScriptTextM
deriving DecidableEq, Repr

/-- `BlockDiffEngine.matchScripts`: fingerprint maps, exact phase,
heuristic fallback, then final unmatched lists filtered by the matched
fingerprint sets. -/
def matchScripts (oldScripts newScripts : List ScriptTextM) : MatchRes :=
  let oldMap := mkFpMap oldScripts
  let newMap := mkFpMap newScripts
  let p1 := phase1 oldMap newMap oldScripts newScripts []
  let p2 := phase2 p1.2.1 p1.2.2
  let matched := p1.1 ++ p2.1
  let matchedNewFps := matched.map (fun m => m.2.fingerprint)
  let matchedOldFps := matched.map (fun m => m.1.fingerprint)
  ⟨matched,
   p1.2.1.filter (fun s => !(matchedOldFps.contains s.fingerprint)),
   p2.2.filter (fun s => !(matchedNewFps.contains s.fingerprint))⟩

/-!
## Diff items and keyed-collection diffs (diff.ts)
-/

/-- A diff item payload: either a native JSON collection entry or a
rendered script. -/
inductive Payload where
  | pj (v : J)
  | pscript (s : ScriptTextM)

/-- One `DiffItem` (types.ts): `added`/`removed`/`dtext` model the
optional embedded `diff: \x7b added, removed, text \x7d` summary. -/
structure DiffItemM where
  type : String
  targetName : String
  old : Option Payload
  new : Option Payload
  fingerprint : Option J
  added : Option Nat
  removed : Option Nat
  dtext : Option String

/-- A diff item with no embedded line-diff summary. -/
def mkItem (ty t : String) (o n : Option Payload) (fp : Option J) : DiffItemM :=
  ⟨ty, t, o, n, fp, none, none, none⟩

/-- `diffVariables` and `diffLists` are line-for-line identical up to
the item type tags; both classify by key: old-only → delete, new-only →
add, both-but-stringify-unequal → edit.  Key sets iterate in insertion
order (`Set` of `Object.keys`). -/
def diffKeyed (tyAdd tyDel tyEdit : String) (o n : List (String × J)) (t : String) :
    List DiffItemM :=
  let oldKeys := (o.map Prod.fst).eraseDups
  let newKeys := (n.map Prod.fst).eraseDups
  let dels := (oldKeys.filter (fun k => !(newKeys.contains k))).map
    (fun k => mkItem tyDel t ((alookup o k).map .pj) none (some (.js k)))
  let addsEdits := newKeys.flatMap (fun k =>
    if !(oldKeys.contains k) then
      [mkItem tyAdd t none ((alookup n k).map .pj) (some (.js k))]
    else
      match alookup o k, alookup n k with
      | some ov, some nv =>
        if stringifyPlain ov ≠ stringifyPlain nv then
          [mkItem tyEdit t (some (.pj ov)) (some (.pj nv)) (some (.js k))]
        else []
      | _, _ => [])
  dels ++ addsEdits

def diffVariables (o n : List (String × J)) (t : String) : List DiffItemM :=
  diffKeyed "variable-add" "variable-delete" "variable-edit" o n t

def diffListsM (o n : List (String × J)) (t : String) : List DiffItemM :=
  diffKeyed "list-add" "list-delete" "list-edit" o n t

/-- JS truthiness of a JSON value. -/
def truthyJ : J → Bool
  | .null => false
  | .undef => false
  | .jb b => b
  | .jn n => !(n == 0)
  | .js s => !(s == "")
  | .ja _ => true
  | .jo _ => true

/-- Property read `v[k]` for the object payloads the diff manipulates
(absent key or non-object → `undefined`; the modelled call sites never
read properties of `null`/`undefined` except where explicitly raised). -/
def jGet (v : J) (k : String) : J :=
  match v with
  | .jo fs => (alookup fs k).getD .undef
  | _ => (.undef)

/-- `Map.set` keyed by a JSON value under `===` (SameValueZero). -/
def jmapSet (m : List (J × J)) (k v : J) : List (J × J) :=
  match m with
  | [] => [(k, v)]
  | p :: r => if jeq p.1 k then (k, v) :: r else p :: jmapSet r k v

def jmapHas (m : List (J × J)) (k : J) : Bool := m.any (fun p => jeq p.1 k)

def jmapGet (m : List (J × J)) (k : J) : Option J :=
  (m.find? (fun p => jeq p.1 k)).map (fun p => p.2)

/-- `createResourceMap` (diff.ts lines 748-758):
`id = r.assetId || r.md5ext || Math.random().toString()`.
`Math.random` is an external entropy source, modelled by the stream
`fb` with a running index: one fresh value is consumed per resource
whose `assetId` and `md5ext` are both falsy (`||` is lazy). -/
def createResourceMapGo (fb : Nat → String) :
    List J → List (J × J) → Nat → List (J × J) × Nat
  | [], m, idx => (m, idx)
  | r :: rest, m, idx =>
    let a := jGet r "assetId"
    if truthyJ a then createResourceMapGo fb rest (jmapSet m a r) idx
    else
      let md := jGet r "md5ext"
      if truthyJ md then createResourceMapGo fb rest (jmapSet m md r) idx
      else createResourceMapGo fb rest (jmapSet m (.js (fb idx)) r) (idx + 1)

def createResourceMap (rs : List J) (fb : Nat → String) (idx : Nat) :
    List (J × J) × Nat :=
  createResourceMapGo fb rs [] idx

/-- `diffCostumes` and `diffSounds` are identical up to type tags:
deletions over the old map, then additions and stringify-compared edits
over the new map. -/
def diffResources (tyAdd tyDel tyEdit : String) (o n : List J) (t : String)
    (fb : Nat → String) (idx : Nat) : List DiffItemM × Nat :=
  let r1 := createResourceMap o fb idx
  let r2 := createResourceMap n fb r1.2
  let om := r1.1
  let nm := r2.1
  let dels := (om.filter (fun p => !(jmapHas nm p.1))).map
    (fun p => mkItem tyDel t (some (.pj p.2)) none (some p.1))
  let addsEdits := nm.flatMap (fun p =>
    if !(jmapHas om p.1) then
      [mkItem tyAdd t none (some (.pj p.2)) (some p.1)]
    else
      match jmapGet om p.1 with
      | some oldR =>
        if stringifyPlain oldR ≠ stringifyPlain p.2 then
          [mkItem tyEdit t (some (.pj oldR)) (some (.pj p.2)) (some p.1)]
        else []
      | none => [])
  (dels ++ addsEdits, r2.2)

/-!
## formatDiff (text-diff.ts) - hunk grouping for display
-/

/-- State of `formatDiff`: output, `lineNumOld`, `lineNumNew`, group. -/
structure FmtState where
  out : String
  lineOld : Nat
  lineNew : Nat
  group : List Change

/-- `flushGroup`: emit a hunk if the group holds a change.  (The
`firstKeep`/`lastKeep` bindings of the source are dead and omitted.) -/
def flushGroup (st : FmtState) : FmtState :=
  if st.group.isEmpty then st
  else if !(st.group.any (fun c => c.type != "keep")) then
    { st with group := [] }
  else
    let oldCount := st.group.countP (fun c => c.type != "add")
    let newCount := st.group.countP (fun c => c.type != "remove")
    let header := "@@ -" ++ toString st.lineOld ++ "," ++ toString oldCount
      ++ " +" ++ toString st.lineNew ++ "," ++ toString newCount ++ " @@\n"
    let emit := fun (s : String × Nat × Nat) (c : Change) =>
      if c.type == "add" then (s.1 ++ "+" ++ c.line ++ "\n", s.2.1, s.2.2 + 1)
      else if c.type == "remove" then (s.1 ++ "-" ++ c.line ++ "\n", s.2.1 + 1, s.2.2)
      else (s.1 ++ " " ++ c.line ++ "\n", s.2.1 + 1, s.2.2 + 1)
    let r := st.group.foldl emit (st.out ++ header, st.lineOld, st.lineNew)
    ⟨r.1, r.2.1, r.2.2, []⟩

/-- `formatDiff` with the default names `old`/`new`. -/
def formatDiff (result : TextDiffResult) : String :=
  let init : FmtState := ⟨"diff --git old new\n--- old\n+++ new\n", 1, 1, []⟩
  let final := result.changes.foldl
    (fun st c =>
      let st1 := { st with group := st.group ++ [c] }
      if c.type == "keep" && st1.group.length > 1 then flushGroup st1 else st1)
    init
  (flushGroup final).out

/-!
## generateDiff (BlockDiffEngine.generateDiff, diff.ts)
-/

/-- A target: the modelled pipeline (parse → normalize → buildIR)
passes `variables`, `lists`, `costumes`, `sounds` through by reference,
so one record serves as both the IR target and the raw target that
diff.ts reads (`_rawTargets`). -/
structure TargetM where
  name : String
  vars : List (String × J)
  lists : List (String × J)
  costumes : List J
  sounds : List J
  blocks : List (String × RawBlockM)

structure ProjectM where
  targets : List TargetM

/-- `ScriptMatcher.matchProjects` is consumed by `generateDiff` only for
its `targetName` iteration: the set union of old and new target names in
insertion order. -/
def unionNames (old new : ProjectM) : List String :=
  (old.targets.map TargetM.name ++ new.targets.map TargetM.name).eraseDups

def findTarget (p : ProjectM) (nm : String) : Option TargetM :=
  p.targets.find? (fun t => t.name == nm)

/-- `diffBlocks` (diff.ts lines 247-273): a line diff over the joined
per-block texts, emitting one `block-edit` summary when nonzero. -/
def diffBlocks (o n : ScriptTextM) (t : String) : List DiffItemM :=
  let td := diffText (String.intercalate "\n" (o.blocks.map BlockTextM.text))
      (String.intercalate "\n" (n.blocks.map BlockTextM.text))
  if td.added > 0 ∨ td.removed > 0 then
    [⟨"block-edit", t, none, none, some (.js o.fingerprint),
      some td.added, some td.removed, some (formatDiff td)⟩]
  else []

/-- The script-level part of `generateDiff` for one target pair: parse
both sides, match, emit `script-modify` (with block diff) for changed
matches and `script-delete`/`script-add` for unmatched scripts; a target
present on one side only yields all-delete or all-add. -/
def scriptItemsFor (t : String) (oldT newT : Option TargetM) (fuel : Nat) :
    Option (Except JsErr (List DiffItemM)) :=
  match oldT, newT with
  | some ot, some nt =>
    obind (parseSpriteScripts ot.blocks fuel) fun oldScripts =>
    obind (parseSpriteScripts nt.blocks fuel) fun newScripts =>
    let mr := matchScripts oldScripts newScripts
    let modItems := mr.matched.flatMap (fun m =>
      let td := diffText m.1.text m.2.text
      if td.added > 0 ∨ td.removed > 0 then
        ⟨"script-modify", t, some (.pscript m.1), some (.pscript m.2),
          some (.js m.1.fingerprint), some td.added, some td.removed,
          some (formatDiff td)⟩ :: diffBlocks m.1 m.2 t
      else [])
    let delItems := mr.unmatchedOld.map (fun s =>
      mkItem "script-delete" t (some (.pscript s)) none (some (.js s.fingerprint)))
    let addItems := mr.unmatchedNew.map (fun s =>
      mkItem "script-add" t none (some (.pscript s)) (some (.js s.fingerprint)))
    some (.ok (modItems ++ delItems ++ addItems))
  | some ot, none =>
    obind (parseSpriteScripts ot.blocks fuel) fun oldScripts =>
    some (.ok (oldScripts.map (fun s =>
      mkItem "script-delete" t (some (.pscript s)) none (some (.js s.fingerprint)))))
  | none, some nt =>
    obind (parseSpriteScripts nt.blocks fuel) fun newScripts =>
    some (.ok (newScripts.map (fun s =>
      mkItem "script-add" t none (some (.pscript s)) (some (.js s.fingerprint)))))
  | none, none => some (.ok [])

/-- All items of one `projectMatch` iteration: keyed-collection items
(only when the target exists on both sides), then script items.  The
random-fallback index for `createResourceMap` is threaded through. -/
def perTargetItems (old new : ProjectM) (fb : Nat → String) (fuel : Nat)
    (nm : String) (idx : Nat) : Option (Except JsErr (List DiffItemM × Nat)) :=
  let oldT := findTarget old nm
  let newT := findTarget new nm
  let res : List DiffItemM × Nat :=
    match oldT, newT with
    | some ot, some nt =>
      let v := diffVariables ot.vars nt.vars nm
      let l := diffListsM ot.lists nt.lists nm
      let c := diffResources "costume-add" "costume-delete" "costume-edit"
          ot.costumes nt.costumes nm fb idx
      let s := diffResources "sound-add" "sound-delete" "sound-edit"
          ot.sounds nt.sounds nm fb c.2
      (v ++ l ++ c.1 ++ s.1, s.2)
    | _, _ => ([], idx)
  obind (scriptItemsFor nm oldT newT fuel) fun sItems =>
  some (.ok (res.1 ++ sItems, res.2))

def generateDiffGo (old new : ProjectM) (fb : Nat → String) (fuel : Nat) :
    List String → Nat → Option (Except JsErr (List DiffItemM))
  | [], _ => some (.ok [])
  | nm :: rest, idx =>
    obind (perTargetItems old new fb fuel nm idx) fun r =>
    obind (generateDiffGo old new fb fuel rest r.2) fun items =>
    some (.ok (r.1 ++ items))

/-- `BlockDiffEngine.generateDiff`: the ordered item list over the union
of target names. -/
def generateDiff (old new : ProjectM) (fb : Nat → String) (fuel : Nat) :
    Option (Except JsErr (List DiffItemM)) :=
  generateDiffGo old new fb fuel (unionNames old new) 0

/-!
## Replay (handleReconstructCommand, step 5 of the CLI reconstruct)

The reconstruct command deep-copies the base project and walks the diff
items.  Only `costume-`/`sound-` items are ever applied; an item whose
target is absent either appends an empty target shell (when the
effective operation is a script/block/costume/sound addition) or is
silently dropped - there is no apply report anywhere in the source.
-/

/-- The empty target shell pushed for an absent target.  The source
object carries only UI fields besides the empty collections; notably it
has no `blocks` key, modelled by an empty block map. -/
def emptyShell (nm : String) : TargetM :=
  ⟨nm, [], [], [], [], []⟩

/-- The item types for which an absent target is created: the effective
operation (after reverse adjustment) is a script/block/costume/sound
addition.  Note that `variable-add` and `list-add` are additions too but
are not in this list. -/
def shellTypes (isReverse : Bool) : List String :=
  if isReverse then
    ["script-delete", "block-delete", "costume-delete", "sound-delete"]
  else
    ["script-add", "block-add", "costume-add", "sound-add"]

/-- `item.new` / `item.old` as the JS value pushed or compared by the
resource replay.  A missing payload is `undefined`; a script payload is
a plain object carrying no `assetId`/`md5ext` properties (it never
reaches the resource replay in a well-formed diff). -/
def payloadJ : Option Payload → J
  | none => .undef
  | some (.pj v) => v
  | some (.pscript _) => .jo []

/-- `r.assetId || r.md5ext` (no random fallback in the replay). -/
def orId (r : J) : J :=
  let a := jGet r "assetId"
  if truthyJ a then a else jGet r "md5ext"

/-- `(value as any).assetId || (value as any).md5ext`: reading a
property of `undefined`/`null` throws a `TypeError`. -/
def payloadIdOrThrow (v : Option Payload) : Except JsErr J :=
  match payloadJ v with
  | .undef => .error .typeError
  | .null => .error .typeError
  | w => .ok (orId w)

/-- Replace the element at index `i` (the `findIndex` assignment). -/
def setAt (l : List J) (i : Nat) (v : J) : List J :=
  (l.enum).map (fun p => if p.1 = i then v else p.2)

/-- Apply one diff item to the project copy (the body of the
`for (const item of diff.items)` loop). -/
def applyOne (p : ProjectM) (item : DiffItemM) (isReverse : Bool) :
    Except JsErr ProjectM :=
  match p.targets.findIdx? (fun t => t.name == item.targetName) with
  | none =>
    if (shellTypes isReverse).contains item.type then
      .ok ⟨p.targets ++ [emptyShell item.targetName]⟩
    else .ok p
  | some ti =>
    if strStartsWith item.type "costume-" || strStartsWith item.type "sound-" then
      let isCostume := strStartsWith item.type "costume"
      let changeType := (splitDash item.type).getD 1 ""
      let oldValue := if isReverse then item.new else item.old
      let newValue := if isReverse then item.old else item.new
      let actualChangeType := if isReverse then
          (if changeType = "add" then "delete"
           else if changeType = "delete" then "add" else changeType)
        else changeType
      let getRes := fun (t : TargetM) => if isCostume then t.costumes else t.sounds
      let setRes := fun (t : TargetM) (rs : List J) =>
        if isCostume then { t with costumes := rs } else { t with sounds := rs }
      let updTarget := fun (f : TargetM → Except JsErr TargetM) =>
        match p.targets.get? ti with
        | some t => (f t).map (fun t2 =>
            ProjectM.mk ((p.targets.enum).map (fun q => if q.1 = ti then t2 else q.2)))
        | none => .ok p
      if actualChangeType = "add" then
        updTarget (fun t => .ok (setRes t (getRes t ++ [payloadJ newValue])))
      else if actualChangeType = "delete" then
        updTarget (fun t =>
          (payloadIdOrThrow oldValue).map (fun itemId =>
            setRes t ((getRes t).filter (fun r => !(jeq (orId r) itemId)))))
      else if actualChangeType = "edit" then
        updTarget (fun t =>
          (payloadIdOrThrow oldValue).map (fun itemId =>
            match (getRes t).findIdx? (fun r => jeq (orId r) itemId) with
            | some ri => setRes t (setAt (getRes t) ri (payloadJ newValue))
            | none => t))
      else .ok p
    else .ok p

/-- The full replay loop over the item list. -/
def applyDiffItems (p : ProjectM) (items : List DiffItemM) (isReverse : Bool) :
    Except JsErr ProjectM :=
  match items with
  | [] => .ok p
  | item :: rest =>
    match applyOne p item isReverse with
    | .error e => .error e
    | .ok p2 => applyDiffItems p2 rest isReverse

/-!
## BlockIR fingerprints (fingerprint.ts)

`BlockIRBuilder.buildBlockIR` copies `inputs`/`fields`/`mutation` of the
normalized block unchanged; `extractChildrenFromInputs` only extracts a
child when an input holds a *nested block object*, which the sb3 raw
format never produces (block references stay as id strings inside
`inputs`).  `FingerprintGenerator` then hashes the sorted JSON of
`\x7b opcode, fields, mutation, inputs, children, next \x7d`.
-/

/-- A Block IR node (types.ts `BlockIR`). -/
inductive BlockIRM where
  | mk (opcode : String) (inputs : List (String × J)) (fields : List (String × J))
      (mutation : Option J) (next : Option BlockIRM) (children : List BlockIRM)

def BlockIRM.opcode : BlockIRM → String
  | .mk o _ _ _ _ _ => o

def BlockIRM.inputs : BlockIRM → List (String × J)
  | .mk _ i _ _ _ _ => i

def BlockIRM.fields : BlockIRM → List (String × J)
  | .mk _ _ f _ _ _ => f

def BlockIRM.mutation : BlockIRM → Option J
  | .mk _ _ _ m _ _ => m

def BlockIRM.next : BlockIRM → Option BlockIRM
  | .mk _ _ _ _ n _ => n

def BlockIRM.children : BlockIRM → List BlockIRM
  | .mk _ _ _ _ _ c => c

/-- `FingerprintGenerator.normalizeInputs` (fingerprint.ts lines 61-83):
destructures each input value as `[inputType, inputData]` (elements 0
and 1; any further elements are dropped) and rebuilds
`[inputType, normalizedData]`, where `normalizedData` is a shallow copy
of `inputData` - value-equal to it, block-id strings included.  Input
values are arrays in every sb3 record (destructuring anything else would
throw in JS and is not modelled). -/
def normalizeInputs (inputs : List (String × J)) : List (String × J) :=
  inputs.map (fun p =>
    match p.2 with
    | .ja l => (p.1, .ja [l.getD 0 .undef, l.getD 1 .undef])
    | v => (p.1, v))

mutual

/-- `createSemanticRepresentation`: the JSON object hashed for a block.
`mutation` is always assigned (possibly `undefined`, which the sorted
stringify drops); `next` is assigned only when present.  The recursive
fingerprints of children and `next` are inlined as
`simpleHash (stringifySorted (semanticRepr _))` - the body of
`generateBlockFingerprint` - to keep the recursion structural. -/
def semanticRepr : BlockIRM → J
  | .mk opcode inputs fields mutation next children =>
    .jo ([("opcode", .js opcode),
          ("fields", .jo fields),
          ("mutation", match mutation with | some m => m | none => .undef),
          ("inputs", .jo (normalizeInputs inputs)),
          ("children", .ja (childFps children))]
      ++ (match next with
          | some nb => [("next", .js (simpleHash (stringifySorted (semanticRepr nb))))]
          | none => []))

def childFps : List BlockIRM → List J
  | [] => []
  | c :: rest => .js (simpleHash (stringifySorted (semanticRepr c))) :: childFps rest

end

/-- `FingerprintGenerator.generateBlockFingerprint`: the 32-bit rolling
hash of the key-sorted JSON serialization. -/
def generateBlockFingerprint (b : BlockIRM) : String :=
  simpleHash (stringifySorted (semanticRepr b))

/-!
## Script reconstruction walk (ProjectParser.reconstructScript, parser.ts)

The first pass of `reconstructScript` walks the `next` chain
(`while (currentBlockId) ... currentBlockId = rawBlock.next`) with no
visited set: a missing id breaks the loop (silent truncation), while a
`next` chain that re-enters a visited id loops forever.
-/

/-- One iteration of the chain walk: `none` means the loop exited
(missing id breaks; the caller also stops on `currentBlockId` being
`undefined`), `some next` means the loop continues with `rawBlock.next`. -/
def reconChainStep (blocks : List (String × RawBlockM)) (cur : String) :
    Option (Option String) :=
  match alookup blocks cur with
  | none => none
  | some b => some b.next

/-- The fuel-limited walk, collecting the visited ids; `none` models a
run that is still looping when the fuel runs out. -/
def reconWalk (blocks : List (String × RawBlockM)) :
    Option String → Nat → Option (List String)
  | _, 0 => none
  | none, _ + 1 => some []
  | some id, fuel + 1 =>
    match alookup blocks id with
    | none => some []
    | some b => (reconWalk blocks b.next fuel).map (fun l => id :: l)

/-- The ids visited within the given fuel (defined for every fuel, even
when the walk has not finished). -/
def reconTrace (blocks : List (String × RawBlockM)) :
    Option String → Nat → List String
  | _, 0 => []
  | none, _ + 1 => []
  | some id, fuel + 1 =>
    match alookup blocks id with
    | none => []
    | some b => id :: reconTrace blocks b.next fuel

/-!
## Concrete instances used by the theorems
-/

/-- A project holding one target with one variable `score = 0`. -/
def exVarOld : ProjectM :=
  ⟨[⟨"Stage", [("varid1", .ja [.js "score", .jn 0])], [], [], [], []⟩]⟩

/-- The same project with `score = 5`. -/
def exVarNew : ProjectM :=
  ⟨[⟨"Stage", [("varid1", .ja [.js "score", .jn 5])], [], [], [], []⟩]⟩

/-- The single item of the diff `exVarOld → exVarNew`. -/
def exVarEditItem : DiffItemM :=
  ⟨"variable-edit", "Stage", some (.pj (.ja [.js "score", .jn 0])),
    some (.pj (.ja [.js "score", .jn 5])), some (.js "varid1"), none, none, none⟩

/-- A deterministic stand-in for the `Math.random` stream: distinct
values at distinct indices, as two random draws are with probability 1. -/
def exRnd : Nat → String := fun n => "r" ++ toString n

/-- A repeat block whose `SUBSTACK` input references block id `"b2"`. -/
def exBlockOld : BlockIRM :=
  .mk "control_repeat" [("SUBSTACK", .ja [.jn 2, .js "b2"])] [] none none []

/-- The same tree rebuilt in a fresh id namespace: the only change is
the referenced child id, now `"c9"`. -/
def exBlockNew : BlockIRM :=
  .mk "control_repeat" [("SUBSTACK", .ja [.jn 2, .js "c9"])] [] none none []

/-- A block map whose one script has a dangling `next` reference. -/
def exDanglingBlocks : List (String × RawBlockM) :=
  [("A", ⟨"event_whenflagclicked", some "ghost", [], [], none, false, true⟩)]

/-- A project around `exDanglingBlocks`. -/
def exDangling : ProjectM := ⟨[⟨"T", [], [], [], [], exDanglingBlocks⟩]⟩

/-- A project with one costume that has neither `assetId` nor `md5ext`. -/
def exNoId : ProjectM := ⟨[⟨"T", [], [], [.jo []], [], []⟩]⟩

/-- A costume-add item aimed at a target that does not exist. -/
def exCostumeAddItem : DiffItemM :=
  mkItem "costume-add" "T" none (some (.pj (.jo [("assetId", .js "a1")]))) none

/-- A two-block cycle: `A.next = B`, `B.next = A`. -/
def exCycBlocks : List (String × RawBlockM) :=
  [("A", ⟨"opA", some "B", [], [], none, false, true⟩),
   ("B", ⟨"opB", some "A", [], [], none, false, false⟩)]

/-- An acyclic two-block chain `A → B`. -/
def exChainBlocks : List (String × RawBlockM) :=
  [("A", ⟨"opA", some "B", [], [], none, false, true⟩),
   ("B", ⟨"opB", none, [], [], none, false, false⟩)]

/-- Two old scripts sharing the fingerprint `"f"` (JS objects are
distinct; `tag` tells them apart), and one new script with the same
fingerprint. -/
def exS1 : ScriptTextM := ⟨"x", "f", [], "t1", 0⟩

def exS2 : ScriptTextM := ⟨"y", "f", [], "t2", 1⟩

def exT1 : ScriptTextM := ⟨"x", "f", [], "t3", 2⟩

/-- A fallback-matchable pair: same text, different fingerprints. -/
def exWo : ScriptTextM := ⟨"x", "a", [], "i", 0⟩

def exWn : ScriptTextM := ⟨"x", "b", [], "j", 1⟩

/-- Whether a diff item's fingerprint field is the string key `k`. -/
def fpIsKey (it : DiffItemM) (k : String) : Bool :=
  match it.fingerprint with
  | some (.js s) => s == k
  | _ => false

/-- A resource with a usable stable identity: truthy `assetId` or
truthy `md5ext` (the random fallback of `createResourceMap` is then
never consulted). -/
def hasStableId (r : J) : Bool :=
  truthyJ (jGet r "assetId") || truthyJ (jGet r "md5ext")

/-- Every costume and sound of the document has a stable identity. -/
def allAssetsStable (p : ProjectM) : Bool :=
  p.targets.all (fun t => t.costumes.all hasStableId && t.sounds.all hasStableId)

/-- A fuel-limited run that finished normally. -/
def isOkSome : Option (Except JsErr α) → Bool
  | some (.ok _) => true
  | _ => false

/-- Script parsing of every target succeeds within the given fuel. -/
def scriptsParseOk (p : ProjectM) (fuel : Nat) : Bool :=
  p.targets.all (fun t => isOkSome (parseSpriteScripts t.blocks fuel))

/-- The fingerprints matched by the exact phase: the keys of the old map
that are present in the new map. -/
def matchedF (es nm : List (String × ScriptTextM)) : List String :=
  (es.filter (fun e => (alookup nm e.1).isSome)).map Prod.fst

/-- The fingerprint-keyed association list `scripts.map(s => [s.fingerprint, s])`;
equal to `mkFpMap` whenever the fingerprints are pairwise distinct. -/
def fpPair (l : List ScriptTextM) : List (String × ScriptTextM) :=
  l.map (fun s => (s.fingerprint, s))

/-- The matched pairs produced by the exact phase of `matchScripts` in
closed form (see `phase1_spec`). -/
def p1Pairs (old new : List ScriptTextM) : List (ScriptTextM × ScriptTextM) :=
  (fpPair old).filterMap
    (fun e => (alookup (fpPair new) e.1).map (fun n => (e.2, n)))

/-- The old scripts left unmatched by the exact phase, in closed form. -/
def p1UnOld (old new : List ScriptTextM) : List ScriptTextM :=
  old.filter (fun s => !((matchedF (fpPair old) (fpPair new)).contains s.fingerprint))

/-- The new scripts left unmatched by the exact phase, in closed form. -/
def p1UnNew (old new : List ScriptTextM) : List ScriptTextM :=
  new.filter (fun s => !((matchedF (fpPair old) (fpPair new)).contains s.fingerprint))

/-- A concrete one-target document whose costume and sound both carry
stable identities; its self-diff is provably empty. -/
def exStableProj : ProjectM :=
  ⟨[⟨"Stage",
     [("var1", .ja [.js "score", .jn 0])],
     [("list1", .ja [.js "L", .ja [.jn 1]])],
     [.jo [("assetId", .js "a1"), ("name", .js "backdrop1")]],
     [.jo [("md5ext", .js "s1.wav"), ("name", .js "pop")]],
     []⟩]⟩

/-! ### The poisoning lemma

`V` is seeded with key `0`, not key `1` as Myers requires.  The very
first iteration (`d = 0`, `k = 0`) takes the `down` branch and reads
`V.get(1)`, which is absent, so `x` is `undefined`; it then overwrites
the seed at key `0` with that poisoned value.  From then on every read
is poisoned, the success test `x >= N && y >= M` is always false, and
the loop falls through to the `return []` fallback. -/

def allPoison (V : List (Int × JsNum)) : Prop := ∀ k, vget V k = .poison

theorem vget_vset (V : List (Int × JsNum)) (k j : Int) (v : JsNum) :
    vget (vset V k v) j = if j = k then v else vget V j := by
  induction V with
  | nil =>
    by_cases hj : j = k
    · simp [vget, vset, hj]
    · have hk : ¬ ((k : Int) = j) := by omega
      simp [vget, vset, hj, hk]
  | cons p rest ih =>
    by_cases hp : p.1 = k
    · by_cases hj : j = k
      · simp [vget, vset, hp, hj]
      · have hk : ¬ ((k : Int) = j) := by omega
        have hpj : ¬ (p.1 = j) := by omega
        simp [vget, vset, hp, hj, hk, hpj]
    · by_cases hpj : p.1 = j
      · have hj : ¬ (j = k) := by omega
        simp [vget, vset, hp, hpj, hj]
      · simp [vget, vset, hp, hpj, ih]

theorem allPoison_vset {V : List (Int × JsNum)} (h : allPoison V) (k : Int) :
    allPoison (vset V k .poison) := by
  intro j
  rw [vget_vset]
  by_cases hj : j = k
  · simp [hj]
  · simp only [hj, if_false]
    exact h j

/-- Processing any `(d, k)` pair from an all-poisoned state keeps the
state all-poisoned and never triggers the success test. -/
theorem mdStep_poison (a b : List String) (N M : Int) (st : MD) (d k : Int)
    (hV : allPoison st.V) (hf : st.found = none) :
    allPoison (mdStep a b N M st d k).V ∧ (mdStep a b N M st d k).found = none := by
  have hV1 : ∀ j, vget st.V j = .poison := hV
  unfold mdStep
  rw [hf]
  simp only [hV1, JsNum.ltJ, JsNum.add1, ite_self, JsNum.subK, snake, JsNum.geInt,
    Bool.and_false, Bool.false_and, Bool.false_eq_true, if_false]
  exact ⟨allPoison_vset hV k, trivial⟩

/-- The concrete very first iteration (`d = 0`, `k = 0`): it reads the
absent key `1`, poisons `x`, and overwrites the seed at key `0`. -/
theorem mdStep_first (a b : List String) (N M : Int) :
    mdStep a b N M ⟨[(0, .int 0)], [], none⟩ 0 0
      = ⟨[(0, .poison)], [(0, [(0, .poison)])], none⟩ := by
  rfl

theorem allPoison_first : allPoison [((0 : Int), JsNum.poison)] := by
  intro k
  by_cases hk : (0 : Int) = k <;> simp [vget, hk]

theorem foldl_mdStep_poison (a b : List String) (N M : Int) :
    ∀ (ps : List (Int × Int)) (st : MD), allPoison st.V → st.found = none →
      (ps.foldl (fun st p => mdStep a b N M st p.1 p.2) st).found = none := by
  intro ps
  induction ps with
  | nil => intro st _ hf; exact hf
  | cons p ps ih =>
    intro st hV hf
    have h := mdStep_poison a b N M st p.1 p.2 hV hf
    exact ih _ h.1 h.2

theorem mdRun_found_none (a b : List String) : (mdRun a b).found = none := by
  unfold mdRun
  have hp : mdPairs (a.length + b.length)
      = ((0 : Int), (0 : Int)) :: ((List.range (a.length + b.length)).map Nat.succ).flatMap
          (fun d => (kRange (d : Int)).map (fun k => ((d : Int), k))) := by
    unfold mdPairs
    rw [List.range_succ_eq_map]
    rfl
  rw [hp]
  simp only [List.foldl_cons]
  have h1 : mdStep a b (a.length : Int) (b.length : Int)
        ⟨[(0, .int 0)], [], none⟩ ((0 : Int), (0 : Int)).1 ((0 : Int), (0 : Int)).2
      = ⟨[(0, .poison)], [(0, [(0, .poison)])], none⟩ :=
    mdStep_first a b (a.length : Int) (b.length : Int)
  rw [h1]
  exact foldl_mdStep_poison a b _ _ _ _ allPoison_first rfl

/-- `myersDiff` always returns the empty fallback script: the `V` map is
seeded at key `0` instead of key `1`, the first read `V.get(1)` is
`undefined`, and the poisoned values make the success test
`x >= N && y >= M` permanently false, so the loop runs to exhaustion and
hits `return []` (whose own comment says it should never happen). -/
theorem myersDiff_eq_nil (a b : List String) : myersDiff a b = [] := by
  unfold myersDiff
  rw [mdRun_found_none]

/-- `diffText` consequently always reports zero additions and removals. -/
theorem diffText_eq_zero (o n : String) : diffText o n = ⟨0, 0, []⟩ := by
  unfold diffText
  rw [myersDiff_eq_nil]
  rfl


/-!
## Claim theorems (first batch)
-/

/-- C4: the claim `added + kept = len(B)` and `removed + kept = len(A)`
for the Line-Diff output fails on the code: `myersDiff` seeds its `V`
map at key `0` instead of key `1`, the first iteration reads the absent
key `1` (`undefined`), every subsequent value is poisoned, the success
test never fires, and the function always returns the `[]` fallback -
which its own comment says should never happen.  On `A = B = ["a"]`
every operation count is `0` while both lengths are `1`. -/
theorem lineDiff_length_law_fails :
    (myersDiff ["a"] ["a"]).countP (fun c => c.type == "add")
        + (myersDiff ["a"] ["a"]).countP (fun c => c.type == "keep") = 0
      ∧ (myersDiff ["a"] ["a"]).countP (fun c => c.type == "remove")
        + (myersDiff ["a"] ["a"]).countP (fun c => c.type == "keep") = 0
      ∧ (["a"] : List String).length = 1 := by
  rw [myersDiff_eq_nil]
  exact ⟨rfl, rfl, rfl⟩

/-- C2: rebuilding a block tree under a fresh, unrelated id namespace
does not leave the fingerprint unchanged.  `exBlockOld` and `exBlockNew`
are structurally identical (same opcode, fields, mutation, children);
they differ only in the internal id their `SUBSTACK` input references
(`"b2"` versus `"c9"`).  Because `normalizeInputs` keeps raw block-id
strings inside `inputs`, `generateBlockFingerprint` hashes them and the
two fingerprints differ (`"47db82c0"` versus `"62693c66"`). -/
theorem fingerprint_changes_under_renaming :
    exBlockOld.opcode = exBlockNew.opcode
  ∧ exBlockOld.fields = exBlockNew.fields
  ∧ exBlockOld.mutation = exBlockNew.mutation
  ∧ exBlockOld.children = [] ∧ exBlockNew.children = []
  ∧ generateBlockFingerprint exBlockOld ≠ generateBlockFingerprint exBlockNew := by
  refine ⟨rfl, rfl, rfl, rfl, rfl, ?_⟩
  decide

/-- C1: the forward round-trip law fails for variables.  The diff of
`exVarOld → exVarNew` is exactly one `variable-edit` item, but the
replay loop of the reconstruct command only applies `costume-`/`sound-`
items, so replaying that diff onto `exVarOld` leaves the project
unchanged: the replayed collection still holds `["score",0]` while the
new document holds `["score",5]`. -/
theorem replay_drops_variable_edits :
    generateDiff exVarOld exVarNew exRnd 4 = some (.ok [exVarEditItem])
  ∧ applyDiffItems exVarOld [exVarEditItem] false = .ok exVarOld
  ∧ (match applyDiffItems exVarOld [exVarEditItem] false with
     | .ok p => (findTarget p "Stage").map (fun t => (alookup t.vars "varid1").map stringifyPlain)
     | .error _ => none)
      = some (some "[\"score\",0]")
  ∧ (findTarget exVarNew "Stage").map (fun t => (alookup t.vars "varid1").map stringifyPlain)
      = some (some "[\"score\",5]") := by
  exact ⟨rfl, rfl, rfl, rfl⟩

/-- C9: a diff item whose named target is absent and whose effective
operation is an addition has an empty target shell created - but the
item is *not* applied to it: the loop `continue`s, so a `costume-add`
aimed at the missing target `T` leaves the new shell with an empty
costume list instead of the added costume (and no apply report exists
anywhere in the source). -/
theorem replay_shell_item_not_applied :
    applyDiffItems ⟨[]⟩ [exCostumeAddItem] false = .ok ⟨[emptyShell "T"]⟩
  ∧ (emptyShell "T").costumes = [] := ⟨rfl, rfl⟩

/-- C9 (amended): for an item whose target is absent from the base
copy, the replay appends an empty shell when the item type is in the
(reverse-adjusted) script/block/costume/sound addition list and
otherwise leaves the project exactly as it was; in both cases the item
itself is never applied and no error is raised. -/
theorem replay_absent_target (p : ProjectM) (item : DiffItemM) (isReverse : Bool)
    (h : p.targets.findIdx? (fun t => t.name == item.targetName) = none) :
    ((shellTypes isReverse).contains item.type = true →
      applyDiffItems p [item] isReverse = .ok ⟨p.targets ++ [emptyShell item.targetName]⟩)
  ∧ ((shellTypes isReverse).contains item.type = false →
      applyDiffItems p [item] isReverse = .ok p) := by
  constructor
  · intro hc
    have h1 : applyOne p item isReverse
        = .ok ⟨p.targets ++ [emptyShell item.targetName]⟩ := by
      unfold applyOne
      rw [h, hc]
      rfl
    unfold applyDiffItems
    rw [h1]
    rfl
  · intro hc
    have h1 : applyOne p item isReverse = .ok p := by
      unfold applyOne
      rw [h, hc]
      rfl
    unfold applyDiffItems
    rw [h1]
    rfl

/-- C9 witness: the amended statement applied to the concrete
costume-add item against an empty project. -/
theorem replay_absent_target_witness :
    (ProjectM.mk []).targets.findIdx?
        (fun t => t.name == exCostumeAddItem.targetName) = none
  ∧ applyDiffItems ⟨[]⟩ [exCostumeAddItem] false
      = .ok ⟨(ProjectM.mk []).targets ++ [emptyShell exCostumeAddItem.targetName]⟩ :=
  ⟨rfl, (replay_absent_target ⟨[]⟩ exCostumeAddItem false rfl).1 rfl⟩

/-- C5: the reconstruction walk does not terminate on every input: on
the two-block cycle `A → B → A` the loop state returns to itself after
two steps (`reconChainStep` maps `A` to `B` and `B` back to `A`), so the
unguarded `while (currentBlockId)` of `reconstructScript` never exits -
the fuel-limited model is still running after 100 steps - and no
visited-id set or structural warning exists in the source. -/
theorem reconstruct_walk_cycles :
    reconChainStep exCycBlocks "A" = some (some "B")
  ∧ reconChainStep exCycBlocks "B" = some (some "A")
  ∧ reconWalk exCycBlocks (some "A") 100 = none := ⟨rfl, rfl, rfl⟩

/-- C6: a malformed block graph does abort the whole comparison: on a
document whose one script has a dangling `next` (`"ghost"` is never
defined), diff generation propagates a `TypeError` (the source reads
`block.inputs` of `undefined`) instead of truncating locally and
returning a result. -/
theorem diff_aborts_on_dangling_next :
    generateDiff exDangling exDangling exRnd 4 = some (.error .typeError) := rfl

/-- C3: diffing a document against itself is not always empty. With one
costume lacking both `assetId` and `md5ext`, `createResourceMap` keys
the two sides by two distinct `Math.random()` draws, so the self-diff
reports one spurious `costume-delete` and one spurious `costume-add`. -/
theorem selfdiff_nonempty_on_random_fallback :
    generateDiff exNoId exNoId exRnd 2 =
      some (.ok
        [mkItem "costume-delete" "T" (some (.pj (.jo []))) none (some (.js "r0")),
         mkItem "costume-add" "T" none (some (.pj (.jo []))) (some (.js "r1"))]) := rfl

/-- C7: the script match result is not a partition when several scripts
share one fingerprint: with old scripts `exS1, exS2` (both fingerprint
`"f"`) and new script `exT1`, the fingerprint map collapses the two old
scripts to the last one, so `exS1` appears in neither the matched pairs
nor the unmatched-old list. -/
theorem matchScripts_loses_duplicate_fingerprint_script :
    matchScripts [exS1, exS2] [exT1] = ⟨[(exS2, exT1)], [], []⟩
  ∧ exS1 ≠ exS2 ∧ exS1 ≠ exT1 := by
  refine ⟨rfl, by decide, by decide⟩

/-!
## Helper lemmas: eraseDups, alookup, phase2
-/

theorem eraseDupsLoop_of_nodup (l : List String) :
    ∀ bs : List String, l.Nodup → (∀ x ∈ l, bs.elem x = false) →
      List.eraseDups.loop l bs = bs.reverse ++ l := by
  induction l with
  | nil => intro bs _ _; simp [List.eraseDups.loop]
  | cons a r ih =>
    intro bs hd hout
    unfold List.eraseDups.loop
    rw [hout a (List.mem_cons_self a r)]
    have hnr : ∀ x ∈ r, (a :: bs).elem x = false := by
      intro x hx
      have hxa : x ≠ a := by
        intro hcon
        subst hcon
        exact (List.nodup_cons.mp hd).1 hx
      have hxb := hout x (List.mem_cons_of_mem a hx)
      have hba : (x == a) = false := by simpa using hxa
      simp only [List.elem_cons, hba]
      exact hxb
    rw [ih (a :: bs) (List.nodup_cons.mp hd).2 hnr]
    simp

theorem eraseDups_of_nodup (l : List String) (h : l.Nodup) : l.eraseDups = l := by
  unfold List.eraseDups
  rw [eraseDupsLoop_of_nodup l [] h (by intro x _; rfl)]
  rfl

theorem alookup_isSome_iff (l : List (String × α)) (k : String) :
    (alookup l k).isSome ↔ k ∈ l.map Prod.fst := by
  induction l with
  | nil => simp [alookup]
  | cons p r ih =>
    by_cases hp : p.1 = k
    · simp [alookup, hp]
    · simp only [alookup, hp, if_false, List.map_cons, List.mem_cons]
      rw [ih]
      constructor
      · intro hmem; exact Or.inr hmem
      · intro hmem
        rcases hmem with hmem | hmem
        · exact absurd hmem.symm hp
        · exact hmem

theorem alookup_eq_none_iff (l : List (String × α)) (k : String) :
    alookup l k = none ↔ k ∉ l.map Prod.fst := by
  rw [← alookup_isSome_iff]
  cases alookup l k <;> simp

theorem alookup_mem (l : List (String × α)) (k : String) (v : α)
    (h : alookup l k = some v) : (k, v) ∈ l := by
  induction l with
  | nil => simp [alookup] at h
  | cons p r ih =>
    by_cases hp : p.1 = k
    · unfold alookup at h
      rw [if_pos hp] at h
      cases h
      have hpe : (k, p.2) = p := by rw [← hp]
      rw [hpe]
      exact List.mem_cons_self p r
    · unfold alookup at h
      rw [if_neg hp] at h
      exact List.mem_cons_of_mem p (ih h)

/-- Every pair produced by the fallback phase passed `simPred`. -/
theorem phase2_mem_sim (os : List ScriptTextM) :
    ∀ (pool : List ScriptTextM) (o n : ScriptTextM),
      (o, n) ∈ (phase2 os pool).1 → simPred o n = true := by
  induction os with
  | nil => intro pool o n h; simp [phase2] at h
  | cons o1 os ih =>
    intro pool o n h
    unfold phase2 at h
    cases hf : pool.find? (fun n2 => simPred o1 n2) with
    | none =>
      rw [hf] at h
      exact ih pool o n h
    | some n1 =>
      rw [hf] at h
      simp only [List.mem_cons, Prod.mk.injEq] at h
      rcases h with ⟨ho, hn⟩ | h
      · subst ho; subst hn
        exact List.find?_some hf
      · exact ih _ o n h

/-!
## Claim theorems: C10, C6 (amended), C5 (amended)
-/

/-- C10: the heuristic fallback pairs two scripts only if the first 20
characters of their texts are identical and the shorter-to-longer length
ratio exceeds 0.7; consequently scripts whose texts differ within the
first 20 characters are never fallback-matched, regardless of overall
similarity. -/
theorem fallback_requires_prefix_and_ratio (os pool : List ScriptTextM)
    (o n : ScriptTextM) (h : (o, n) ∈ (phase2 os pool).1) :
    (String.mk (o.text.data.take 20) = String.mk (n.text.data.take 20)
      ∧ 10 * Nat.min o.text.length n.text.length
          > 7 * Nat.max o.text.length n.text.length)
  ∧ ∀ o2 n2 : ScriptTextM,
      String.mk (o2.text.data.take 20) ≠ String.mk (n2.text.data.take 20) →
      (o2, n2) ∉ (phase2 os pool).1 := by
  have hs := phase2_mem_sim os pool o n h
  unfold simPred at hs
  simp only [Bool.and_eq_true, decide_eq_true_eq, beq_iff_eq] at hs
  refine ⟨⟨hs.2, hs.1⟩, ?_⟩
  intro o2 n2 hne hmem
  have hs2 := phase2_mem_sim os pool o2 n2 hmem
  unfold simPred at hs2
  simp only [Bool.and_eq_true, decide_eq_true_eq, beq_iff_eq] at hs2
  exact hne hs2.2

/-- C10 witness: `exWo`/`exWn` (same one-character text, different
fingerprints) are fallback-matched, and satisfy both conditions. -/
theorem fallback_requires_prefix_and_ratio_witness :
    ((exWo, exWn) ∈ (phase2 [exWo] [exWn]).1)
  ∧ String.mk (exWo.text.data.take 20) = String.mk (exWn.text.data.take 20)
  ∧ 10 * Nat.min exWo.text.length exWn.text.length
      > 7 * Nat.max exWo.text.length exWn.text.length := by
  have h : (exWo, exWn) ∈ (phase2 [exWo] [exWn]).1 := by decide
  have hr := (fallback_requires_prefix_and_ratio [exWo] [exWn] exWo exWn h).1
  exact ⟨h, hr.1, hr.2⟩

/-- C6 (amended): when a block's `next` references an id missing from
the map, the chain walk of `parseScriptWithBlocks` finishes the current
block and then reads `block.inputs` of `undefined`: the thrown
`TypeError` is the outcome of the parse (no truncation, no warning).
The processed block is assumed to carry no structural sub-references so
that the error arises from the `next` chain itself. -/
theorem parse_throws_on_missing_next (blocks : List (String × RawBlockM))
    (tid nid : String) (b : RawBlockM) (depth : Int) (acc : String)
    (accB : List BlockTextM) (fuel : Nat)
    (h1 : alookup blocks tid = some b)
    (h2 : b.next = some nid)
    (h3 : alookup blocks nid = none)
    (h4 : refOf b.inputs "CONDITION" = none)
    (h5 : refOf b.inputs "SUBSTACK" = none)
    (h6 : refOf b.inputs "SUBSTACK2" = none) :
    parseSWBgo blocks (some tid) depth false acc accB (fuel + 2)
      = some (.error .typeError) := by
  unfold parseSWBgo
  rw [h1]
  simp only [h4, h5, h6, obind, h2]
  unfold parseSWBgo
  rw [h3]

/-- C6 witness: the amended statement applied to the dangling-next
block map of the counterexample document. -/
theorem parse_throws_on_missing_next_witness :
    alookup exDanglingBlocks "A"
        = some ⟨"event_whenflagclicked", some "ghost", [], [], none, false, true⟩
  ∧ parseSWBgo exDanglingBlocks (some "A") (-1) false "" [] 2
      = some (.error .typeError) := by
  refine ⟨rfl, ?_⟩
  exact parse_throws_on_missing_next exDanglingBlocks "A" "ghost"
    ⟨"event_whenflagclicked", some "ghost", [], [], none, false, true⟩
    (-1) "" [] 0 rfl rfl rfl rfl rfl rfl

theorem reconWalk_none_trace_len (blocks : List (String × RawBlockM)) :
    ∀ (fuel : Nat) (cur : Option String), reconWalk blocks cur fuel = none →
      (reconTrace blocks cur fuel).length = fuel := by
  intro fuel
  induction fuel with
  | zero => intro cur _; cases cur <;> rfl
  | succ f ih =>
    intro cur h
    cases cur with
    | none => simp [reconWalk] at h
    | some id =>
      unfold reconWalk at h
      unfold reconTrace
      cases hl : alookup blocks id with
      | none => rw [hl] at h; simp at h
      | some b =>
        rw [hl] at h
        dsimp only [] at h
        have h2 : reconWalk blocks b.next f = none := by
          cases hw : reconWalk blocks b.next f with
          | none => rfl
          | some l => rw [hw] at h; simp at h
        simp only [List.length_cons]
        rw [ih b.next h2]

theorem reconTrace_subset_keys (blocks : List (String × RawBlockM)) :
    ∀ (fuel : Nat) (cur : Option String) (x : String),
      x ∈ reconTrace blocks cur fuel → x ∈ blocks.map Prod.fst := by
  intro fuel
  induction fuel with
  | zero => intro cur x h; simp [reconTrace] at h
  | succ f ih =>
    intro cur x h
    cases cur with
    | none => simp [reconTrace] at h
    | some id =>
      unfold reconTrace at h
      cases hl : alookup blocks id with
      | none => rw [hl] at h; simp at h
      | some b =>
        rw [hl] at h
        rcases List.mem_cons.mp h with hx | hx
        · subst hx
          have : (alookup blocks x).isSome := by rw [hl]; rfl
          exact (alookup_isSome_iff blocks x).mp this
        · exact ih b.next x hx

theorem nodup_subset_length_le (l m : List String) (hn : l.Nodup)
    (hsub : ∀ x ∈ l, x ∈ m) : l.length ≤ m.dedup.length := by
  have h1 : l.toFinset.card = l.length := List.toFinset_card_of_nodup hn
  have h2 : l.toFinset ⊆ m.toFinset := by
    intro x hx
    rw [List.mem_toFinset] at hx ⊢
    exact hsub x hx
  have h3 := Finset.card_le_card h2
  rw [h1, List.card_toFinset] at h3
  exact h3

/-- C5 (amended): whenever the `next` chain from a start id never
revisits an id within (number of distinct block ids) + 1 steps, the
unguarded walk of `reconstructScript` terminates within that bound
(truncating silently at a missing id); the visited-set guard and the
structural warning of the claim do not exist in the source, and a chain
that does revisit an id loops forever (see the cycle counterexample). -/
theorem reconstruct_walk_terminates_on_acyclic
    (blocks : List (String × RawBlockM)) (startId : String)
    (h : (reconTrace blocks (some startId)
        ((blocks.map Prod.fst).dedup.length + 1)).Nodup) :
    (reconWalk blocks (some startId)
        ((blocks.map Prod.fst).dedup.length + 1)).isSome := by
  by_contra hn
  have hnone : reconWalk blocks (some startId)
      ((blocks.map Prod.fst).dedup.length + 1) = none := by
    cases hw : reconWalk blocks (some startId)
        ((blocks.map Prod.fst).dedup.length + 1) with
    | none => rfl
    | some l => rw [hw] at hn; simp at hn
  have hlen := reconWalk_none_trace_len blocks _ _ hnone
  have hle := nodup_subset_length_le _ (blocks.map Prod.fst) h
    (fun x hx => reconTrace_subset_keys blocks _ _ x hx)
  rw [hlen] at hle
  omega

/-- C5 witness: on the acyclic chain `A → B` the visited trace is nodup
and the walk indeed terminates within the bound. -/
theorem reconstruct_walk_terminates_on_acyclic_witness :
    (reconTrace exChainBlocks (some "A")
        ((exChainBlocks.map Prod.fst).dedup.length + 1)).Nodup
  ∧ (reconWalk exChainBlocks (some "A")
        ((exChainBlocks.map Prod.fst).dedup.length + 1)).isSome := by
  have h : (reconTrace exChainBlocks (some "A")
      ((exChainBlocks.map Prod.fst).dedup.length + 1)).Nodup := by decide
  exact ⟨h, reconstruct_walk_terminates_on_acyclic exChainBlocks "A" h⟩

/-!
## Claim C8: keyed-collection classification
-/

theorem map_eq_flatMap_singleton (l : List α) (f : α → β) :
    l.map f = l.flatMap (fun x => [f x]) := by
  induction l with
  | nil => rfl
  | cons a r ih => simp [ih]

theorem filter_flatMap_comm (l : List α) (g : α → List β) (p : β → Bool) :
    (l.flatMap g).filter p = l.flatMap (fun x => (g x).filter p) := by
  induction l with
  | nil => rfl
  | cons a r ih => simp [List.filter_append, ih]

/-- Filtering the items of a keyed `flatMap` by one key keeps exactly
that key's items, provided every generated item is fingerprinted by its
generating key and the keys are distinct. -/
theorem filter_fpIsKey_flatMap (keys : List String) (g : String → List DiffItemM)
    (k : String) (hg : ∀ k2, ∀ it ∈ g k2, fpIsKey it k = (k2 == k))
    (hk : keys.Nodup) :
    (keys.flatMap g).filter (fun it => fpIsKey it k)
      = if k ∈ keys then g k else [] := by
  induction keys with
  | nil => simp
  | cons a r ih =>
    have hr := ih (List.nodup_cons.mp hk).2
    simp only [List.flatMap_cons, List.filter_append]
    by_cases hak : a = k
    · subst hak
      have h1 : (g a).filter (fun it => fpIsKey it a) = g a := by
        rw [List.filter_eq_self]
        intro it hit
        rw [hg a it hit]
        simp
      have hnr : a ∉ r := (List.nodup_cons.mp hk).1
      rw [h1, hr]
      simp [hnr]
    · have h1 : (g a).filter (fun it => fpIsKey it k) = [] := by
        rw [List.filter_eq_nil_iff]
        intro it hit
        rw [hg a it hit]
        simpa using hak
      rw [h1, hr]
      have hmemr : (k ∈ a :: r) ↔ (k ∈ r) := by
        constructor
        · intro hm
          rcases List.mem_cons.mp hm with he | hm2
          · exact absurd he.symm hak
          · exact hm2
        · exact fun hm => List.mem_cons_of_mem a hm
      by_cases hkr : k ∈ r
      · rw [if_pos hkr, if_pos (hmemr.mpr hkr)]
        rfl
      · rw [if_neg hkr, if_neg (fun hm => hkr (hmemr.mp hm))]
        rfl

theorem contains_eq_mem (l : List String) (k : String) :
    l.contains k = true ↔ k ∈ l := by
  induction l with
  | nil => simp
  | cons a r ih =>
    rw [List.contains_cons, Bool.or_eq_true, beq_iff_eq, ih]
    exact (List.mem_cons).symm

/-- C8: `diffVariables` classifies each key exactly as the claim states:
old-only keys yield one `variable-delete`, new-only keys one
`variable-add`, keys in both with (stringify-)unequal values one
`variable-edit`, keys in both with equal values nothing; moreover every
emitted item is scoped to the target and fingerprinted by a key of one
of the two collections. -/
theorem diffVariables_classifies (o n : List (String × J)) (t k : String)
    (ho : (o.map Prod.fst).Nodup) (hn : (n.map Prod.fst).Nodup) :
    ((diffVariables o n t).filter (fun it => fpIsKey it k)
      = match alookup o k, alookup n k with
        | some ov, none => [mkItem "variable-delete" t (some (.pj ov)) none (some (.js k))]
        | none, some nv => [mkItem "variable-add" t none (some (.pj nv)) (some (.js k))]
        | some ov, some nv =>
            if stringifyPlain ov ≠ stringifyPlain nv then
              [mkItem "variable-edit" t (some (.pj ov)) (some (.pj nv)) (some (.js k))]
            else []
        | none, none => [])
  ∧ ∀ it ∈ diffVariables o n t, it.targetName = t ∧
      ∃ k2, it.fingerprint = some (.js k2)
        ∧ (k2 ∈ o.map Prod.fst ∨ k2 ∈ n.map Prod.fst) := by
  have hoe : (o.map Prod.fst).eraseDups = o.map Prod.fst := eraseDups_of_nodup _ ho
  have hne : (n.map Prod.fst).eraseDups = n.map Prod.fst := eraseDups_of_nodup _ hn
  constructor
  · unfold diffVariables diffKeyed
    rw [hoe, hne, List.filter_append]
    rw [map_eq_flatMap_singleton]
    rw [filter_fpIsKey_flatMap _ _ k
      (by
        intro k2 it hit
        simp only [List.mem_singleton] at hit
        subst hit
        simp [fpIsKey, mkItem])
      (List.Nodup.filter _ ho)]
    rw [filter_fpIsKey_flatMap _ _ k
      (by
        intro k2 it hit
        cases hok : (o.map Prod.fst).contains k2 with
        | true =>
          rw [hok] at hit
          simp only [Bool.not_true] at hit
          rw [if_neg Bool.false_ne_true] at hit
          cases hov : alookup o k2 with
          | none => rw [hov] at hit; simp at hit
          | some ov =>
            rw [hov] at hit
            cases hnv : alookup n k2 with
            | none => rw [hnv] at hit; simp at hit
            | some nv =>
              rw [hnv] at hit
              dsimp only [] at hit
              by_cases hdiff : stringifyPlain ov ≠ stringifyPlain nv
              · rw [if_pos hdiff] at hit
                simp only [List.mem_singleton] at hit
                subst hit
                simp [fpIsKey, mkItem]
              · rw [if_neg hdiff] at hit
                simp at hit
        | false =>
          rw [hok] at hit
          simp only [Bool.not_false] at hit
          rw [if_true] at hit
          simp only [List.mem_singleton] at hit
          subst hit
          simp [fpIsKey, mkItem])
      hn]
    -- now both sides are if-expressions over memberships; case on the lookups
    cases hov : alookup o k with
    | none =>
      have hko2 : k ∉ o.map Prod.fst := by
        rw [← alookup_isSome_iff, hov]
        simp
      cases hnv : alookup n k with
      | none =>
        have hknn : k ∉ n.map Prod.fst := by
          rw [← alookup_isSome_iff, hnv]
          simp
        simp [hko2, hknn]
      | some nv =>
        have hknn : k ∈ n.map Prod.fst := by
          rw [← alookup_isSome_iff, hnv]; rfl
        have hkoo : (o.map Prod.fst).contains k = false := by
          cases hc : (o.map Prod.fst).contains k with
          | false => rfl
          | true => exact absurd ((contains_eq_mem _ _).mp hc) hko2
        simp [hko2, hknn, hkoo, hnv]
    | some ov =>
      have hko : k ∈ o.map Prod.fst := by
        rw [← alookup_isSome_iff, hov]; rfl
      have hkp := alookup_mem o k ov hov
      cases hnv : alookup n k with
      | none =>
        have hknn : k ∉ n.map Prod.fst := by
          rw [← alookup_isSome_iff, hnv]; simp
        have hknc : (n.map Prod.fst).contains k = false := by
          cases hc : (n.map Prod.fst).contains k with
          | false => rfl
          | true => exact absurd ((contains_eq_mem _ _).mp hc) hknn
        simp [hko, hkp, hknc, hknn, hov]
      | some nv =>
        have hknn : k ∈ n.map Prod.fst := by
          rw [← alookup_isSome_iff, hnv]; rfl
        have hknc : (n.map Prod.fst).contains k = true := (contains_eq_mem _ _).mpr hknn
        have hkoc : (o.map Prod.fst).contains k = true := (contains_eq_mem _ _).mpr hko
        simp [hko, hkp, hknn, hknc, hkoc, hov, hnv]
  · intro it hit
    unfold diffVariables diffKeyed at hit
    rw [hoe, hne] at hit
    rcases List.mem_append.mp hit with hm | hm
    · rcases List.mem_map.mp hm with ⟨k2, hk2, heq⟩
      subst heq
      refine ⟨rfl, k2, rfl, Or.inl (List.mem_of_mem_filter hk2)⟩
    · rcases List.mem_flatMap.mp hm with ⟨k2, hk2, hin⟩
      cases hok : (o.map Prod.fst).contains k2 with
      | true =>
        rw [hok] at hin
        simp only [Bool.not_true] at hin
        rw [if_neg Bool.false_ne_true] at hin
        cases hov : alookup o k2 with
        | none => rw [hov] at hin; simp at hin
        | some ov =>
          rw [hov] at hin
          cases hnv : alookup n k2 with
          | none => rw [hnv] at hin; simp at hin
          | some nv =>
            rw [hnv] at hin
            dsimp only [] at hin
            by_cases hdiff : stringifyPlain ov ≠ stringifyPlain nv
            · rw [if_pos hdiff] at hin
              simp only [List.mem_singleton] at hin
              subst hin
              exact ⟨rfl, k2, rfl, Or.inr hk2⟩
            · rw [if_neg hdiff] at hin
              simp at hin
      | false =>
        rw [hok] at hin
        simp only [Bool.not_false] at hin
        rw [if_true] at hin
        simp only [List.mem_singleton] at hin
        subst hin
        exact ⟨rfl, k2, rfl, Or.inr hk2⟩

/-- C8 witness: the spec scenario - variable `score` changes value 0 to
5 under unchanged name and id - yields exactly one `variable-edit` item
and nothing else. -/
theorem diffVariables_classifies_witness :
    ([("id1", J.ja [.js "score", .jn 0])].map Prod.fst).Nodup
  ∧ ([("id1", J.ja [.js "score", .jn 5])].map Prod.fst).Nodup
  ∧ (diffVariables [("id1", .ja [.js "score", .jn 0])]
        [("id1", .ja [.js "score", .jn 5])] "Stage").filter (fun it => fpIsKey it "id1")
      = [mkItem "variable-edit" "Stage" (some (.pj (.ja [.js "score", .jn 0])))
          (some (.pj (.ja [.js "score", .jn 5]))) (some (.js "id1"))]
  ∧ diffVariables [("id1", .ja [.js "score", .jn 0])]
        [("id1", .ja [.js "score", .jn 5])] "Stage"
      = [mkItem "variable-edit" "Stage" (some (.pj (.ja [.js "score", .jn 0])))
          (some (.pj (.ja [.js "score", .jn 5]))) (some (.js "id1"))] := by
  refine ⟨by decide, by decide, ?_, rfl⟩
  have h := (diffVariables_classifies [("id1", .ja [.js "score", .jn 0])]
    [("id1", .ja [.js "score", .jn 5])] "Stage" "id1" (by decide) (by decide)).1
  rw [h]
  rfl

/-!
## Helper lemmas for the self-diff and matching theorems
-/

mutual

theorem jeq_refl : ∀ v : J, jeq v v = true
  | .null => rfl
  | .undef => rfl
  | .jb b => by simp [jeq]
  | .jn n => by simp [jeq]
  | .js s => by simp [jeq]
  | .ja l => by simpa [jeq] using jeqList_refl l
  | .jo fs => by simpa [jeq] using jeqFields_refl fs

theorem jeqList_refl : ∀ l : List J, jeqList l l = true
  | [] => rfl
  | e :: r => by simp [jeqList, jeq_refl e, jeqList_refl r]

theorem jeqFields_refl : ∀ l : List (String × J), jeqFields l l = true
  | [] => rfl
  | (k, v) :: r => by simp [jeqFields, jeq_refl v, jeqFields_refl r]

end

mutual

theorem jeq_sound : ∀ a b : J, jeq a b = true → a = b
  | .null, b, h => by cases b <;> simp [jeq] at h <;> rfl
  | .undef, b, h => by cases b <;> simp [jeq] at h <;> rfl
  | .jb x, b, h => by
    cases b <;> simp [jeq] at h
    rw [h]
  | .jn x, b, h => by
    cases b <;> simp [jeq] at h
    rw [h]
  | .js x, b, h => by
    cases b <;> simp [jeq] at h
    rw [h]
  | .ja l, b, h => by
    cases b <;> simp only [jeq] at h
    case ja m => rw [jeqList_sound l m h]
    all_goals simp at h
  | .jo fs, b, h => by
    cases b <;> simp only [jeq] at h
    case jo gs => rw [jeqFields_sound fs gs h]
    all_goals simp at h

theorem jeqList_sound : ∀ a b : List J, jeqList a b = true → a = b
  | [], [], _ => rfl
  | [], _ :: _, h => by simp [jeqList] at h
  | _ :: _, [], h => by simp [jeqList] at h
  | x :: r, y :: r2, h => by
    simp only [jeqList, Bool.and_eq_true] at h
    rw [jeq_sound x y h.1, jeqList_sound r r2 h.2]

theorem jeqFields_sound : ∀ a b : List (String × J), jeqFields a b = true → a = b
  | [], [], _ => rfl
  | [], _ :: _, h => by simp [jeqFields] at h
  | _ :: _, [], h => by simp [jeqFields] at h
  | (k, v) :: r, (k2, v2) :: r2, h => by
    simp only [jeqFields, Bool.and_eq_true, beq_iff_eq] at h
    rw [h.1.1, jeq_sound v v2 h.1.2, jeqFields_sound r r2 h.2]

end

theorem elem_eq_mem (l : List String) (k : String) : l.elem k = true ↔ k ∈ l :=
  contains_eq_mem l k

theorem mem_eraseDupsLoop (x : String) (l : List String) :
    ∀ bs : List String, x ∈ List.eraseDups.loop l bs ↔ (x ∈ bs ∨ x ∈ l) := by
  induction l with
  | nil => intro bs; simp [List.eraseDups.loop]
  | cons a r ih =>
    intro bs
    unfold List.eraseDups.loop
    cases he : bs.elem a with
    | true =>
      rw [ih bs]
      have ha : a ∈ bs := (elem_eq_mem bs a).mp he
      constructor
      · rintro (h | h)
        · exact Or.inl h
        · exact Or.inr (List.mem_cons_of_mem a h)
      · rintro (h | h)
        · exact Or.inl h
        · rcases List.mem_cons.mp h with he2 | h2
          · subst he2; exact Or.inl ha
          · exact Or.inr h2
    | false =>
      rw [ih (a :: bs)]
      constructor
      · rintro (h | h)
        · rcases List.mem_cons.mp h with he2 | h2
          · subst he2; exact Or.inr (List.mem_cons_self _ _)
          · exact Or.inl h2
        · exact Or.inr (List.mem_cons_of_mem a h)
      · rintro (h | h)
        · exact Or.inl (List.mem_cons_of_mem a h)
        · rcases List.mem_cons.mp h with he2 | h2
          · subst he2; exact Or.inl (List.mem_cons_self _ _)
          · exact Or.inr h2

theorem mem_eraseDups (x : String) (l : List String) :
    x ∈ l.eraseDups ↔ x ∈ l := by
  unfold List.eraseDups
  rw [mem_eraseDupsLoop]
  simp

theorem flatMap_nil_of (l : List α) (g : α → List β)
    (h : ∀ x ∈ l, g x = []) : l.flatMap g = [] := by
  induction l with
  | nil => rfl
  | cons a r ih =>
    simp only [List.flatMap_cons]
    rw [h a (List.mem_cons_self a r), ih (fun x hx => h x (List.mem_cons_of_mem a hx))]
    rfl

theorem alookup_cons (p : String × α) (r : List (String × α)) (k : String) :
    alookup (p :: r) k = if p.1 = k then some p.2 else alookup r k := rfl

theorem alookup_filter_ne (l : List (String × α)) (k f : String) (hk : k ≠ f) :
    alookup (l.filter (fun p => p.1 != f)) k = alookup l k := by
  induction l with
  | nil => rfl
  | cons p r ih =>
    by_cases hp : p.1 = f
    · have hf : (p.1 != f) = false := by simpa using hp
      have hpk : ¬ (p.1 = k) := by rw [hp]; exact fun h => hk h.symm
      rw [List.filter_cons, hf]
      simp only [Bool.false_eq_true, if_false]
      rw [ih, alookup_cons, if_neg hpk]
    · have hf : (p.1 != f) = true := by simpa using hp
      rw [List.filter_cons, hf]
      simp only [if_true]
      rw [alookup_cons, alookup_cons, ih]

theorem alookup_self_of_nodup (l : List (String × α)) (k : String) (v : α)
    (hnd : (l.map Prod.fst).Nodup) (hmem : (k, v) ∈ l) :
    alookup l k = some v := by
  induction l with
  | nil => simp at hmem
  | cons p r ih =>
    rcases List.mem_cons.mp hmem with he | hm
    · rw [← he, alookup_cons]
      simp
    · have hnd2 : (r.map Prod.fst).Nodup := by
        rw [List.map_cons, List.nodup_cons] at hnd
        exact hnd.2
      have hpk : ¬ (p.1 = k) := by
        intro hpk
        have hmem2 : k ∈ r.map Prod.fst := List.mem_map_of_mem Prod.fst hm
        rw [List.map_cons, List.nodup_cons] at hnd
        exact hnd.1 (hpk ▸ hmem2)
      rw [alookup_cons, if_neg hpk]
      exact ih hnd2 hm

theorem mem_keys_mapSetS (m : List (String × ScriptTextM)) (k : String)
    (v : ScriptTextM) (x : String) :
    x ∈ (mapSetS m k v).map Prod.fst ↔ x = k ∨ x ∈ m.map Prod.fst := by
  induction m with
  | nil => simp [mapSetS]
  | cons p r ih =>
    unfold mapSetS
    by_cases hp : p.1 = k
    · rw [if_pos hp]
      simp only [List.map_cons, List.mem_cons, ← hp]
      tauto
    · rw [if_neg hp]
      simp only [List.map_cons, List.mem_cons, ih]
      tauto

theorem mapSetS_keys_nodup (m : List (String × ScriptTextM)) (k : String)
    (v : ScriptTextM) (h : (m.map Prod.fst).Nodup) :
    ((mapSetS m k v).map Prod.fst).Nodup := by
  induction m with
  | nil => simp [mapSetS]
  | cons p r ih =>
    unfold mapSetS
    rw [List.map_cons, List.nodup_cons] at h
    by_cases hp : p.1 = k
    · rw [if_pos hp, List.map_cons, List.nodup_cons]
      exact ⟨by rw [← hp]; exact h.1, h.2⟩
    · rw [if_neg hp, List.map_cons, List.nodup_cons]
      refine ⟨?_, ih h.2⟩
      intro hmem
      rcases (mem_keys_mapSetS r k v p.1).mp hmem with he | hm
      · exact hp he
      · exact h.1 hm

theorem foldl_mapSetS_keys_nodup (ss : List ScriptTextM) :
    ∀ acc : List (String × ScriptTextM), (acc.map Prod.fst).Nodup →
    ((ss.foldl (fun m s => mapSetS m s.fingerprint s) acc).map Prod.fst).Nodup := by
  induction ss with
  | nil => intro acc h; exact h
  | cons s r ih =>
    intro acc h
    rw [List.foldl_cons]
    exact ih _ (mapSetS_keys_nodup _ _ _ h)

theorem mkFpMap_keys_nodup (ss : List ScriptTextM) :
    ((mkFpMap ss).map Prod.fst).Nodup :=
  foldl_mapSetS_keys_nodup ss [] (by simp)

theorem foldl_mapSetS_keys_mem (ss : List ScriptTextM) :
    ∀ acc x, x ∈ acc.map Prod.fst →
    x ∈ (ss.foldl (fun m s => mapSetS m s.fingerprint s) acc).map Prod.fst := by
  induction ss with
  | nil => intro acc x h; exact h
  | cons s r ih =>
    intro acc x h
    rw [List.foldl_cons]
    exact ih _ x ((mem_keys_mapSetS _ _ _ x).mpr (Or.inr h))

theorem foldl_mapSetS_mem (ss : List ScriptTextM) :
    ∀ acc, ∀ s ∈ ss, s.fingerprint ∈
      (ss.foldl (fun m s => mapSetS m s.fingerprint s) acc).map Prod.fst := by
  induction ss with
  | nil => intro acc s h; simp at h
  | cons s0 r ih =>
    intro acc s h
    rw [List.foldl_cons]
    rcases List.mem_cons.mp h with he | hm
    · subst he
      exact foldl_mapSetS_keys_mem r _ _ ((mem_keys_mapSetS _ _ _ _).mpr (Or.inl rfl))
    · exact ih _ s hm

theorem mem_keys_mkFpMap (ss : List ScriptTextM) (s : ScriptTextM) (h : s ∈ ss) :
    s.fingerprint ∈ (mkFpMap ss).map Prod.fst :=
  foldl_mapSetS_mem ss [] s h

theorem mapSetS_append (m : List (String × ScriptTextM)) (k : String)
    (v : ScriptTextM) (h : k ∉ m.map Prod.fst) :
    mapSetS m k v = m ++ [(k, v)] := by
  induction m with
  | nil => rfl
  | cons p r ih =>
    unfold mapSetS
    rw [List.map_cons] at h
    have hp : ¬ (p.1 = k) := fun he => h (List.mem_cons.mpr (Or.inl he.symm))
    rw [if_neg hp, ih (fun hm => h (List.mem_cons.mpr (Or.inr hm)))]
    rfl

theorem foldl_mapSetS_eq (ss : List ScriptTextM) :
    ∀ acc : List (String × ScriptTextM),
    ((acc.map Prod.fst) ++ ss.map ScriptTextM.fingerprint).Nodup →
    ss.foldl (fun m s => mapSetS m s.fingerprint s) acc
      = acc ++ ss.map (fun s => (s.fingerprint, s)) := by
  induction ss with
  | nil => intro acc _; simp
  | cons s r ih =>
    intro acc h
    rw [List.map_cons] at h
    have hnotin : s.fingerprint ∉ acc.map Prod.fst := by
      intro hm
      have hd := List.disjoint_of_nodup_append h
      exact hd hm (List.mem_cons_self _ _)
    rw [List.append_cons] at h
    rw [List.foldl_cons, mapSetS_append _ _ _ hnotin]
    have h2 : (((acc ++ [(s.fingerprint, s)]).map Prod.fst)
        ++ r.map ScriptTextM.fingerprint).Nodup := by
      rw [List.map_append]
      simpa using h
    rw [ih _ h2, List.append_assoc]
    rfl

theorem mkFpMap_of_nodup (ss : List ScriptTextM)
    (h : (ss.map ScriptTextM.fingerprint).Nodup) :
    mkFpMap ss = ss.map (fun s => (s.fingerprint, s)) := by
  unfold mkFpMap
  rw [foldl_mapSetS_eq ss [] (by simpa using h)]
  rfl

theorem matchedF_congr (es nm nm2 : List (String × ScriptTextM))
    (h : ∀ e ∈ es, (alookup nm2 e.1).isSome = (alookup nm e.1).isSome) :
    matchedF es nm2 = matchedF es nm := by
  unfold matchedF
  rw [List.filter_congr h]

theorem phase1_spec (es : List (String × ScriptTextM)) :
    ∀ (nm : List (String × ScriptTextM)) (uo un : List ScriptTextM)
    (acc : List (ScriptTextM × ScriptTextM)),
    (es.map Prod.fst).Nodup →
    phase1 es nm uo un acc =
      (acc ++ es.filterMap (fun e => (alookup nm e.1).map (fun n => (e.2, n))),
       uo.filter (fun s => !((matchedF es nm).contains s.fingerprint)),
       un.filter (fun s => !((matchedF es nm).contains s.fingerprint))) := by
  induction es with
  | nil =>
    intro nm uo un acc _
    simp [phase1, matchedF]
  | cons e es ih =>
    intro nm uo un acc hnd
    obtain ⟨f, o⟩ := e
    rw [List.map_cons, List.nodup_cons] at hnd
    have hne : ∀ e2 ∈ es, e2.1 ≠ f := by
      intro e2 he2 hk
      have hm2 : e2.1 ∈ es.map Prod.fst := List.mem_map_of_mem Prod.fst he2
      rw [hk] at hm2
      exact hnd.1 hm2
    cases hl : alookup nm f with
    | some n =>
      have hstep : phase1 ((f, o) :: es) nm uo un acc =
          phase1 es (nm.filter (fun p => p.1 != f))
            (uo.filter (fun s => s.fingerprint != f))
            (un.filter (fun s => s.fingerprint != f))
            (acc ++ [(o, n)]) := by
        conv_lhs => rw [phase1]
        rw [hl]
      have hcongr : ∀ e2 ∈ es,
          (alookup (nm.filter (fun p => p.1 != f)) e2.1).map (fun n2 => (e2.2, n2))
            = (alookup nm e2.1).map (fun n2 => (e2.2, n2)) := by
        intro e2 he2
        rw [alookup_filter_ne nm e2.1 f (hne e2 he2)]
      have hcongr2 : ∀ e2 ∈ es,
          (alookup (nm.filter (fun p => p.1 != f)) e2.1).isSome
            = (alookup nm e2.1).isSome := by
        intro e2 he2
        rw [alookup_filter_ne nm e2.1 f (hne e2 he2)]
      have hmf : matchedF ((f, o) :: es) nm = f :: matchedF es nm := by
        unfold matchedF
        rw [List.filter_cons]
        simp only [hl, Option.isSome_some, if_true, List.map_cons]
      rw [hstep, ih _ _ _ _ hnd.2]
      rw [matchedF_congr es nm _ hcongr2, List.filterMap_congr hcongr, hmf]
      have hfm : List.filterMap
          (fun e => (alookup nm e.1).map (fun n2 => (e.2, n2))) ((f, o) :: es)
          = (o, n) :: List.filterMap
            (fun e => (alookup nm e.1).map (fun n2 => (e.2, n2))) es := by
        rw [List.filterMap_cons]
        simp only [hl, Option.map_some']
      rw [hfm]
      have hflt : ∀ (l : List ScriptTextM),
          (l.filter (fun s => s.fingerprint != f)).filter
            (fun s => !((matchedF es nm).contains s.fingerprint))
          = l.filter (fun s => !((f :: matchedF es nm).contains s.fingerprint)) := by
        intro l
        rw [List.filter_filter]
        apply List.filter_congr
        intro s _
        simp only [List.contains_cons, Bool.not_or, bne]
        rw [Bool.and_comm]
      rw [hflt uo, hflt un]
      simp
    | none =>
      have hstep : phase1 ((f, o) :: es) nm uo un acc = phase1 es nm uo un acc := by
        conv_lhs => rw [phase1]
        rw [hl]
      have hmf : matchedF ((f, o) :: es) nm = matchedF es nm := by
        unfold matchedF
        rw [List.filter_cons]
        simp only [hl, Option.isSome_none]
        rfl
      have hfm : List.filterMap
          (fun e => (alookup nm e.1).map (fun n2 => (e.2, n2))) ((f, o) :: es)
          = List.filterMap
            (fun e => (alookup nm e.1).map (fun n2 => (e.2, n2))) es := by
        rw [List.filterMap_cons]
        simp only [hl, Option.map_none']
      rw [hstep, ih _ _ _ _ hnd.2, hmf, hfm]

theorem mem_jmapSet (m : List (J × J)) (k v : J) (b : J × J)
    (h : b ∈ jmapSet m k v) : b = (k, v) ∨ b ∈ m := by
  induction m with
  | nil => simpa [jmapSet] using h
  | cons p r ih =>
    unfold jmapSet at h
    by_cases hp : jeq p.1 k = true
    · rw [if_pos hp] at h
      rcases List.mem_cons.mp h with he | hm
      · exact Or.inl he
      · exact Or.inr (List.mem_cons_of_mem p hm)
    · rw [if_neg hp] at h
      rcases List.mem_cons.mp h with he | hm
      · exact Or.inr (he ▸ List.mem_cons_self p r)
      · rcases ih hm with h1 | h2
        · exact Or.inl h1
        · exact Or.inr (List.mem_cons_of_mem p h2)

theorem jmapSet_keysUniq (m : List (J × J)) (k v : J)
    (h : m.Pairwise (fun a b => jeq a.1 b.1 = false)) :
    (jmapSet m k v).Pairwise (fun a b => jeq a.1 b.1 = false) := by
  induction m with
  | nil => simp [jmapSet]
  | cons p r ih =>
    rw [List.pairwise_cons] at h
    unfold jmapSet
    by_cases hp : jeq p.1 k = true
    · rw [if_pos hp]
      have hk := jeq_sound p.1 k hp
      rw [List.pairwise_cons]
      refine ⟨?_, h.2⟩
      intro b hb
      have hb2 := h.1 b hb
      rw [hk] at hb2
      exact hb2
    · rw [if_neg hp]
      rw [List.pairwise_cons]
      refine ⟨?_, ih h.2⟩
      intro b hb
      rcases mem_jmapSet r k v b hb with he | hm
      · rw [he]
        exact Bool.eq_false_iff.mpr hp
      · exact h.1 b hm

theorem createResourceMapGo_uniq (fb : Nat → String) (rs : List J) :
    ∀ m idx, m.Pairwise (fun a b => jeq a.1 b.1 = false) →
    (createResourceMapGo fb rs m idx).1.Pairwise (fun a b => jeq a.1 b.1 = false) := by
  induction rs with
  | nil => intro m idx h; exact h
  | cons r rest ih =>
    intro m idx h
    unfold createResourceMapGo
    by_cases h1 : truthyJ (jGet r "assetId") = true
    · rw [if_pos h1]
      exact ih _ _ (jmapSet_keysUniq _ _ _ h)
    · rw [if_neg h1]
      by_cases h2 : truthyJ (jGet r "md5ext") = true
      · rw [if_pos h2]
        exact ih _ _ (jmapSet_keysUniq _ _ _ h)
      · rw [if_neg h2]
        exact ih _ _ (jmapSet_keysUniq _ _ _ h)

theorem createResourceMapGo_stable_idx (fb : Nat → String) (rs : List J)
    (h : ∀ r ∈ rs, hasStableId r = true) :
    ∀ m idx, (createResourceMapGo fb rs m idx).2 = idx := by
  induction rs with
  | nil => intro m idx; rfl
  | cons r rest ih =>
    intro m idx
    have hr := h r (List.mem_cons_self r rest)
    have hrest : ∀ x ∈ rest, hasStableId x = true :=
      fun x hx => h x (List.mem_cons_of_mem r hx)
    unfold hasStableId at hr
    rw [Bool.or_eq_true] at hr
    unfold createResourceMapGo
    by_cases h1 : truthyJ (jGet r "assetId") = true
    · rw [if_pos h1]
      exact ih hrest _ _
    · rw [if_neg h1]
      have h2 : truthyJ (jGet r "md5ext") = true := by
        rcases hr with ha | hb
        · exact absurd ha h1
        · exact hb
      rw [if_pos h2]
      exact ih hrest _ _

theorem jmapHas_of_mem (m : List (J × J)) (p : J × J) (hp : p ∈ m) :
    jmapHas m p.1 = true := by
  unfold jmapHas
  rw [List.any_eq_true]
  exact ⟨p, hp, jeq_refl p.1⟩

theorem jmapGet_self (m : List (J × J)) (p : J × J)
    (hu : m.Pairwise (fun a b => jeq a.1 b.1 = false)) (hp : p ∈ m) :
    jmapGet m p.1 = some p.2 := by
  induction m with
  | nil => simp at hp
  | cons q r ih =>
    rw [List.pairwise_cons] at hu
    rcases List.mem_cons.mp hp with he | hm
    · subst he
      unfold jmapGet
      rw [show List.find? (fun q : J × J => jeq q.1 p.1) (p :: r) = some p by
        simp [List.find?_cons, jeq_refl]]
      rfl
    · unfold jmapGet
      rw [show List.find? (fun q2 : J × J => jeq q2.1 p.1) (q :: r)
          = List.find? (fun q2 : J × J => jeq q2.1 p.1) r by
        simp [List.find?_cons, hu.1 p hm]]
      exact ih hu.2 hm

theorem diffKeyed_self (tyA tyD tyE : String) (o : List (String × J)) (t : String) :
    diffKeyed tyA tyD tyE o o t = [] := by
  simp only [diffKeyed]
  have hdel : (((o.map Prod.fst).eraseDups).filter
      (fun k => !(((o.map Prod.fst).eraseDups).contains k))) = [] := by
    rw [List.filter_eq_nil_iff]
    intro k hk
    rw [contains_eq_mem ((o.map Prod.fst).eraseDups) k |>.mpr hk |> congrArg Bool.not]
    simp
  have hae : ((o.map Prod.fst).eraseDups).flatMap (fun k =>
      if !(((o.map Prod.fst).eraseDups).contains k) then
        [mkItem tyA t none ((alookup o k).map .pj) (some (.js k))]
      else
        match alookup o k, alookup o k with
        | some ov, some nv =>
          if stringifyPlain ov ≠ stringifyPlain nv then
            [mkItem tyE t (some (.pj ov)) (some (.pj nv)) (some (.js k))]
          else []
        | _, _ => []) = [] := by
    apply flatMap_nil_of
    intro k hk
    rw [(contains_eq_mem ((o.map Prod.fst).eraseDups) k).mpr hk]
    simp only [Bool.not_true, Bool.false_eq_true, if_false]
    cases hv : alookup o k with
    | none => rfl
    | some v =>
      dsimp only []
      rw [if_neg (fun hc => hc rfl)]
  rw [hdel, hae]
  rfl

theorem diffResources_self (tyA tyD tyE : String) (cs : List J) (t : String)
    (fb : Nat → String) (idx : Nat) (h : ∀ r ∈ cs, hasStableId r = true) :
    diffResources tyA tyD tyE cs cs t fb idx = ([], idx) := by
  have hidx : (createResourceMap cs fb idx).2 = idx :=
    createResourceMapGo_stable_idx fb cs h [] idx
  have huniq : (createResourceMap cs fb idx).1.Pairwise
      (fun a b => jeq a.1 b.1 = false) :=
    createResourceMapGo_uniq fb cs [] idx (by simp)
  simp only [diffResources]
  rw [hidx]
  have hdel : ((createResourceMap cs fb idx).1.filter
      (fun p => !(jmapHas (createResourceMap cs fb idx).1 p.1))) = [] := by
    rw [List.filter_eq_nil_iff]
    intro p hp
    rw [jmapHas_of_mem _ p hp]
    simp
  have hae : (createResourceMap cs fb idx).1.flatMap (fun p =>
      if !(jmapHas (createResourceMap cs fb idx).1 p.1) then
        [mkItem tyA t none (some (.pj p.2)) (some p.1)]
      else
        match jmapGet (createResourceMap cs fb idx).1 p.1 with
        | some oldR =>
          if stringifyPlain oldR ≠ stringifyPlain p.2 then
            [mkItem tyE t (some (.pj oldR)) (some (.pj p.2)) (some p.1)]
          else []
        | none => []) = [] := by
    apply flatMap_nil_of
    intro p hp
    rw [jmapHas_of_mem _ p hp]
    simp only [Bool.not_true, Bool.false_eq_true, if_false]
    rw [jmapGet_self _ p huniq hp]
    dsimp only []
    rw [if_neg (fun hc => hc rfl)]
  rw [hdel, hae, hidx]
  rfl

theorem matchScripts_self (ss : List ScriptTextM) :
    (matchScripts ss ss).unmatchedOld = [] ∧ (matchScripts ss ss).unmatchedNew = [] := by
  have hnd := mkFpMap_keys_nodup ss
  have hp1 := phase1_spec (mkFpMap ss) (mkFpMap ss) ss ss [] hnd
  have huo : ss.filter
      (fun s => !((matchedF (mkFpMap ss) (mkFpMap ss)).contains s.fingerprint)) = [] := by
    rw [List.filter_eq_nil_iff]
    intro s hs
    have hk : s.fingerprint ∈ matchedF (mkFpMap ss) (mkFpMap ss) := by
      unfold matchedF
      have hfe : List.filter (fun e => (alookup (mkFpMap ss) e.1).isSome)
          (mkFpMap ss) = mkFpMap ss := by
        rw [List.filter_eq_self]
        intro e he
        rw [alookup_self_of_nodup (mkFpMap ss) e.1 e.2 hnd he]
        rfl
      rw [hfe]
      exact mem_keys_mkFpMap ss s hs
    rw [(contains_eq_mem _ _).mpr hk]
    simp
  simp only [matchScripts]
  rw [hp1]
  dsimp only []
  rw [huo]
  exact ⟨rfl, rfl⟩

theorem scriptItemsFor_self (t : String) (tg : TargetM) (fuel : Nat)
    (ss : List ScriptTextM) (hps : parseSpriteScripts tg.blocks fuel = some (.ok ss)) :
    scriptItemsFor t (some tg) (some tg) fuel = some (.ok []) := by
  have hms := matchScripts_self ss
  unfold scriptItemsFor
  dsimp only []
  rw [hps]
  simp only [obind]
  rw [hms.1, hms.2]
  rw [flatMap_nil_of ((matchScripts ss ss).matched) _
    (fun m hm => by simp [diffText_eq_zero])]
  rfl

theorem perTargetItems_self (p : ProjectM) (fb : Nat → String) (fuel : Nat)
    (nm : String) (idx : Nat)
    (hassets : allAssetsStable p = true) (hscripts : scriptsParseOk p fuel = true) :
    perTargetItems p p fb fuel nm idx = some (.ok ([], idx)) := by
  unfold perTargetItems
  cases hft : findTarget p nm with
  | none =>
    simp only [hft]
    simp [scriptItemsFor, obind]
  | some tg =>
    have htg : tg ∈ p.targets := by
      unfold findTarget at hft
      exact List.mem_of_find?_eq_some hft
    have hstable := (List.all_eq_true.mp
      (by unfold allAssetsStable at hassets; exact hassets)) tg htg
    rw [Bool.and_eq_true] at hstable
    have hcost : ∀ r ∈ tg.costumes, hasStableId r = true := by
      intro r hr
      exact List.all_eq_true.mp hstable.1 r hr
    have hsnd : ∀ r ∈ tg.sounds, hasStableId r = true := by
      intro r hr
      exact List.all_eq_true.mp hstable.2 r hr
    have hok := (List.all_eq_true.mp
      (by unfold scriptsParseOk at hscripts; exact hscripts)) tg htg
    obtain ⟨ss, hss⟩ : ∃ ss, parseSpriteScripts tg.blocks fuel = some (.ok ss) := by
      cases hps : parseSpriteScripts tg.blocks fuel with
      | none => rw [hps] at hok; simp [isOkSome] at hok
      | some ex =>
        cases ex with
        | ok ss => exact ⟨ss, rfl⟩
        | error e => rw [hps] at hok; simp [isOkSome] at hok
    simp only [hft]
    rw [scriptItemsFor_self nm tg fuel ss hss]
    simp only [obind]
    unfold diffVariables diffListsM
    rw [diffKeyed_self, diffKeyed_self]
    rw [diffResources_self "costume-add" "costume-delete" "costume-edit"
      tg.costumes nm fb idx hcost]
    dsimp only []
    rw [diffResources_self "sound-add" "sound-delete" "sound-edit"
      tg.sounds nm fb idx hsnd]
    rfl

theorem generateDiffGo_self (p : ProjectM) (fb : Nat → String) (fuel : Nat)
    (hassets : allAssetsStable p = true) (hscripts : scriptsParseOk p fuel = true) :
    ∀ (names : List String) (idx : Nat),
    generateDiffGo p p fb fuel names idx = some (.ok []) := by
  intro names
  induction names with
  | nil => intro idx; rfl
  | cons nm rest ih =>
    intro idx
    unfold generateDiffGo
    rw [perTargetItems_self p fb fuel nm idx hassets hscripts]
    simp only [obind]
    rw [ih idx]
    simp only [obind]
    rfl

/-- C3 (amended): diffing a document against itself yields no items at
all, provided every costume and sound carries a truthy `assetId` or
`md5ext` (so the `Math.random()` fallback key of `createResourceMap` is
never consulted) and script parsing terminates normally.  Without the
stable-identity proviso the self-diff can be nonempty
(`selfdiff_nonempty_on_random_fallback`). -/
theorem selfdiff_empty_with_stable_ids (p : ProjectM) (fb : Nat → String) (fuel : Nat)
    (hassets : allAssetsStable p = true) (hscripts : scriptsParseOk p fuel = true) :
    generateDiff p p fb fuel = some (.ok []) := by
  unfold generateDiff
  exact generateDiffGo_self p fb fuel hassets hscripts (unionNames p p) 0

/-- Witness: a concrete stable-identity document whose self-diff is
empty. -/
theorem selfdiff_empty_with_stable_ids_witness :
    allAssetsStable exStableProj = true ∧ scriptsParseOk exStableProj 1 = true ∧
    generateDiff exStableProj exStableProj (fun n => toString n) 1 = some (.ok []) :=
  ⟨rfl, rfl, selfdiff_empty_with_stable_ids exStableProj (fun n => toString n) 1 rfl rfl⟩

theorem keys_fpPair (l : List ScriptTextM) :
    (fpPair l).map Prod.fst = l.map ScriptTextM.fingerprint := by
  unfold fpPair
  rw [List.map_map]
  rfl

theorem alookup_fpPair_some (new : List ScriptTextM) (f : String) (n : ScriptTextM)
    (h : alookup (fpPair new) f = some n) : n ∈ new ∧ n.fingerprint = f := by
  have hm := alookup_mem _ f n h
  unfold fpPair at hm
  rw [List.mem_map] at hm
  obtain ⟨s, hs, he⟩ := hm
  have h1 : s.fingerprint = f := congrArg Prod.fst he
  have h2 : s = n := congrArg Prod.snd he
  subst h2
  exact ⟨hs, h1⟩

theorem alookup_fpPair_self (new : List ScriptTextM) (n : ScriptTextM)
    (hNew : (new.map ScriptTextM.fingerprint).Nodup) (hn : n ∈ new) :
    alookup (fpPair new) n.fingerprint = some n :=
  alookup_self_of_nodup _ _ _ (by rw [keys_fpPair]; exact hNew)
    (List.mem_map.mpr ⟨n, hn, rfl⟩)

theorem mem_matchedF_iff (old new : List ScriptTextM) (f : String) :
    f ∈ matchedF (fpPair old) (fpPair new)
      ↔ (∃ o ∈ old, o.fingerprint = f) ∧ (∃ n ∈ new, n.fingerprint = f) := by
  unfold matchedF
  rw [List.mem_map]
  constructor
  · rintro ⟨e, he, hef⟩
    rw [List.mem_filter] at he
    obtain ⟨he1, he2⟩ := he
    unfold fpPair at he1
    rw [List.mem_map] at he1
    obtain ⟨o, ho, heo⟩ := he1
    subst heo
    refine ⟨⟨o, ho, hef⟩, ?_⟩
    rw [alookup_isSome_iff, keys_fpPair, List.mem_map] at he2
    obtain ⟨n, hn, hnf⟩ := he2
    exact ⟨n, hn, by rw [hnf]; exact hef⟩
  · rintro ⟨⟨o, ho, hof⟩, ⟨n, hn, hnf⟩⟩
    refine ⟨(o.fingerprint, o), ?_, hof⟩
    rw [List.mem_filter]
    constructor
    · exact List.mem_map.mpr ⟨o, ho, rfl⟩
    · rw [alookup_isSome_iff, keys_fpPair, List.mem_map]
      exact ⟨n, hn, by rw [hnf, hof]⟩

theorem mem_p1Pairs_iff (old new : List ScriptTextM) (pr : ScriptTextM × ScriptTextM) :
    pr ∈ p1Pairs old new
      ↔ ∃ o ∈ old, alookup (fpPair new) o.fingerprint = some pr.2 ∧ pr.1 = o := by
  unfold p1Pairs
  rw [List.mem_filterMap]
  constructor
  · rintro ⟨e, he, hf⟩
    unfold fpPair at he
    rw [List.mem_map] at he
    obtain ⟨o, ho, heo⟩ := he
    subst heo
    cases hl : alookup (fpPair new) o.fingerprint with
    | none =>
      rw [show ((fun s => (s.fingerprint, s)) o).1 = o.fingerprint from rfl, hl] at hf
      simp at hf
    | some n =>
      rw [show ((fun s => (s.fingerprint, s)) o).1 = o.fingerprint from rfl, hl] at hf
      simp only [Option.map_some'] at hf
      have hpr := Option.some.inj hf
      refine ⟨o, ho, ?_, ?_⟩
      · rw [hl, ← hpr]
      · rw [← hpr]
  · rintro ⟨o, ho, hl, h1⟩
    refine ⟨(o.fingerprint, o), List.mem_map.mpr ⟨o, ho, rfl⟩, ?_⟩
    rw [show ((o.fingerprint, o) : String × ScriptTextM).1 = o.fingerprint from rfl, hl]
    rw [Option.map_some']
    rw [show ((o.fingerprint, o) : String × ScriptTextM).2 = o from rfl, ← h1]

theorem mem_p1UnOld_iff (old new : List ScriptTextM) (s : ScriptTextM) :
    s ∈ p1UnOld old new
      ↔ s ∈ old ∧ s.fingerprint ∉ matchedF (fpPair old) (fpPair new) := by
  unfold p1UnOld
  rw [List.mem_filter]
  constructor
  · rintro ⟨h1, h2⟩
    refine ⟨h1, ?_⟩
    intro hm
    rw [(contains_eq_mem _ _).mpr hm] at h2
    simp at h2
  · rintro ⟨h1, h2⟩
    refine ⟨h1, ?_⟩
    cases hc : (matchedF (fpPair old) (fpPair new)).contains s.fingerprint with
    | false => rfl
    | true => exact absurd ((contains_eq_mem _ _).mp hc) h2

theorem mem_p1UnNew_iff (old new : List ScriptTextM) (s : ScriptTextM) :
    s ∈ p1UnNew old new
      ↔ s ∈ new ∧ s.fingerprint ∉ matchedF (fpPair old) (fpPair new) := by
  unfold p1UnNew
  rw [List.mem_filter]
  constructor
  · rintro ⟨h1, h2⟩
    refine ⟨h1, ?_⟩
    intro hm
    rw [(contains_eq_mem _ _).mpr hm] at h2
    simp at h2
  · rintro ⟨h1, h2⟩
    refine ⟨h1, ?_⟩
    cases hc : (matchedF (fpPair old) (fpPair new)).contains s.fingerprint with
    | false => rfl
    | true => exact absurd ((contains_eq_mem _ _).mp hc) h2

theorem ph2_fst_mem (os : List ScriptTextM) :
    ∀ pool, ∀ pr ∈ (phase2 os pool).1, pr.1 ∈ os := by
  induction os with
  | nil => intro pool pr hpr; simp [phase2] at hpr
  | cons o os ih =>
    intro pool pr hpr
    unfold phase2 at hpr
    cases hf : pool.find? (fun n => simPred o n) with
    | some n =>
      rw [hf] at hpr
      dsimp only [] at hpr
      rcases List.mem_cons.mp hpr with he | hm
      · rw [he]
        exact List.mem_cons_self _ _
      · exact List.mem_cons_of_mem o (ih _ pr hm)
    | none =>
      rw [hf] at hpr
      exact List.mem_cons_of_mem o (ih _ pr hpr)

theorem ph2_snd_mem (os : List ScriptTextM) :
    ∀ pool, ∀ pr ∈ (phase2 os pool).1, pr.2 ∈ pool := by
  induction os with
  | nil => intro pool pr hpr; simp [phase2] at hpr
  | cons o os ih =>
    intro pool pr hpr
    unfold phase2 at hpr
    cases hf : pool.find? (fun n => simPred o n) with
    | some n =>
      rw [hf] at hpr
      dsimp only [] at hpr
      rcases List.mem_cons.mp hpr with he | hm
      · rw [he]
        exact List.mem_of_find?_eq_some hf
      · exact (List.mem_filter.mp (ih _ pr hm)).1
    | none =>
      rw [hf] at hpr
      exact ih _ pr hpr

theorem ph2_rest_sub (os : List ScriptTextM) :
    ∀ pool, ∀ x ∈ (phase2 os pool).2, x ∈ pool := by
  induction os with
  | nil => intro pool x hx; exact hx
  | cons o os ih =>
    intro pool x hx
    unfold phase2 at hx
    cases hf : pool.find? (fun n => simPred o n) with
    | some n =>
      rw [hf] at hx
      dsimp only [] at hx
      exact (List.mem_filter.mp (ih _ x hx)).1
    | none =>
      rw [hf] at hx
      exact ih _ x hx

theorem ph2_pool_partition (os : List ScriptTextM) :
    ∀ pool, ∀ x ∈ pool,
      x ∈ (phase2 os pool).1.map Prod.snd ∨ x ∈ (phase2 os pool).2 := by
  induction os with
  | nil => intro pool x hx; exact Or.inr hx
  | cons o os ih =>
    intro pool x hx
    unfold phase2
    cases hf : pool.find? (fun n => simPred o n) with
    | some n =>
      dsimp only []
      by_cases hxn : x = n
      · exact Or.inl (List.mem_map.mpr ⟨(o, n), List.mem_cons_self _ _, hxn.symm⟩)
      · have hx2 : x ∈ pool.filter (fun s => s != n) := by
          rw [List.mem_filter]
          exact ⟨hx, by simp [hxn]⟩
        rcases ih _ x hx2 with h1 | h2
        · rw [List.mem_map] at h1
          obtain ⟨pr, hpr, he⟩ := h1
          exact Or.inl (List.mem_map.mpr ⟨pr, List.mem_cons_of_mem _ hpr, he⟩)
        · exact Or.inr h2
    | none => exact ih _ x hx

theorem mem_filter_not_contains (l : List ScriptTextM) (ks : List String)
    (s : ScriptTextM) :
    s ∈ l.filter (fun x => !(ks.contains x.fingerprint)) ↔ s ∈ l ∧ s.fingerprint ∉ ks := by
  rw [List.mem_filter]
  constructor
  · rintro ⟨h1, h2⟩
    refine ⟨h1, ?_⟩
    intro hm
    rw [(contains_eq_mem _ _).mpr hm] at h2
    simp at h2
  · rintro ⟨h1, h2⟩
    refine ⟨h1, ?_⟩
    cases hc : ks.contains s.fingerprint with
    | false => rfl
    | true => exact absurd ((contains_eq_mem _ _).mp hc) h2

theorem p1Pairs_fst_fp_mem (old new : List ScriptTextM)
    (pr : ScriptTextM × ScriptTextM) (h : pr ∈ p1Pairs old new) :
    pr.1.fingerprint ∈ matchedF (fpPair old) (fpPair new) := by
  obtain ⟨o, ho, hl, hf⟩ := (mem_p1Pairs_iff old new pr).mp h
  obtain ⟨hn, hnf⟩ := alookup_fpPair_some new _ _ hl
  rw [hf]
  exact (mem_matchedF_iff old new o.fingerprint).mpr ⟨⟨o, ho, rfl⟩, ⟨pr.2, hn, hnf⟩⟩

theorem p1Pairs_snd_fp_mem (old new : List ScriptTextM)
    (pr : ScriptTextM × ScriptTextM) (h : pr ∈ p1Pairs old new) :
    pr.2.fingerprint ∈ matchedF (fpPair old) (fpPair new) := by
  obtain ⟨o, ho, hl, hf⟩ := (mem_p1Pairs_iff old new pr).mp h
  obtain ⟨hn, hnf⟩ := alookup_fpPair_some new _ _ hl
  rw [hnf]
  exact (mem_matchedF_iff old new o.fingerprint).mpr ⟨⟨o, ho, rfl⟩, ⟨pr.2, hn, hnf⟩⟩

theorem filterMap_pair_map_fst (nm : List (String × ScriptTextM)) :
    ∀ l : List ScriptTextM,
    ((l.map (fun s => (s.fingerprint, s))).filterMap
        (fun e => (alookup nm e.1).map (fun n => (e.2, n)))).map Prod.fst
      = l.filter (fun o => (alookup nm o.fingerprint).isSome) := by
  intro l
  induction l with
  | nil => rfl
  | cons o os ih =>
    rw [List.map_cons, List.filterMap_cons, List.filter_cons]
    dsimp only []
    cases hl : alookup nm o.fingerprint with
    | none =>
      simp only [hl, Option.map_none', Option.isSome_none, Bool.false_eq_true, if_false]
      exact ih
    | some n =>
      simp only [hl, Option.map_some', Option.isSome_some, if_true, List.map_cons]
      rw [ih]

theorem p1Pairs_map_fst (old new : List ScriptTextM) :
    (p1Pairs old new).map Prod.fst
      = old.filter (fun o => (alookup (fpPair new) o.fingerprint).isSome) :=
  filterMap_pair_map_fst (fpPair new) old

theorem ph2_fst_sublist (os : List ScriptTextM) :
    ∀ pool, List.Sublist ((phase2 os pool).1.map Prod.fst) os := by
  induction os with
  | nil => intro pool; exact List.nil_sublist []
  | cons o os ih =>
    intro pool
    unfold phase2
    cases hf : pool.find? (fun n => simPred o n) with
    | some n =>
      dsimp only []
      rw [List.map_cons]
      exact List.Sublist.cons₂ o (ih _)
    | none =>
      dsimp only []
      exact List.Sublist.cons o (ih _)

theorem ph2_snd_nodup (os : List ScriptTextM) :
    ∀ pool, pool.Nodup → ((phase2 os pool).1.map Prod.snd).Nodup := by
  induction os with
  | nil => intro pool _; simp [phase2]
  | cons o os ih =>
    intro pool h
    unfold phase2
    cases hf : pool.find? (fun n => simPred o n) with
    | some n =>
      dsimp only []
      rw [List.map_cons, List.nodup_cons]
      constructor
      · intro hmem
        rw [List.mem_map] at hmem
        obtain ⟨pr, hpr, he⟩ := hmem
        have h2 := ph2_snd_mem _ _ pr hpr
        rw [List.mem_filter, he] at h2
        simp at h2
      · exact ih _ (List.Nodup.filter _ h)
    | none =>
      dsimp only []
      exact ih _ h

theorem p1Pairs_snd_fp_eq_fst_fp (old new : List ScriptTextM)
    (pr : ScriptTextM × ScriptTextM) (h : pr ∈ p1Pairs old new) :
    pr.2.fingerprint = pr.1.fingerprint := by
  obtain ⟨o, ho, hl, hf⟩ := (mem_p1Pairs_iff old new pr).mp h
  obtain ⟨_, hnf⟩ := alookup_fpPair_some new _ _ hl
  rw [hnf, hf]

/-- C7 (amended): when the scripts on each side carry pairwise-distinct
fingerprints, `matchScripts` produces a partition: the matched pairs have
pairwise-distinct first components and pairwise-distinct second components
(no script is claimed twice, so the matching is bijective), every matched
pair draws its components from the two input lists, every old script lies
in exactly one of matched-firsts / unmatched-old, and every new script
lies in exactly one of matched-seconds / unmatched-new.  (With duplicated
fingerprints this fails: `matchScripts_loses_duplicate_fingerprint_script`.) -/
theorem matchScripts_partition (old new : List ScriptTextM)
    (hOld : (old.map ScriptTextM.fingerprint).Nodup)
    (hNew : (new.map ScriptTextM.fingerprint).Nodup) :
    ((matchScripts old new).matched.map Prod.fst).Nodup ∧
    ((matchScripts old new).matched.map Prod.snd).Nodup ∧
    (∀ pr ∈ (matchScripts old new).matched, pr.1 ∈ old ∧ pr.2 ∈ new) ∧
    (∀ o ∈ old,
      (o ∈ (matchScripts old new).matched.map Prod.fst ∧
        o ∉ (matchScripts old new).unmatchedOld) ∨
      (o ∉ (matchScripts old new).matched.map Prod.fst ∧
        o ∈ (matchScripts old new).unmatchedOld)) ∧
    (∀ n ∈ new,
      (n ∈ (matchScripts old new).matched.map Prod.snd ∧
        n ∉ (matchScripts old new).unmatchedNew) ∨
      (n ∉ (matchScripts old new).matched.map Prod.snd ∧
        n ∈ (matchScripts old new).unmatchedNew)) := by
  have hInjO : ∀ x ∈ old, ∀ y ∈ old, x.fingerprint = y.fingerprint → x = y :=
    fun x hx y hy he => List.inj_on_of_nodup_map hOld hx hy he
  have hInjN : ∀ x ∈ new, ∀ y ∈ new, x.fingerprint = y.fingerprint → x = y :=
    fun x hx y hy he => List.inj_on_of_nodup_map hNew hx hy he
  have hkeys : ((old.map (fun s => (s.fingerprint, s))).map Prod.fst).Nodup := by
    rw [show old.map (fun s => (s.fingerprint, s)) = fpPair old from rfl, keys_fpPair]
    exact hOld
  have hes := mkFpMap_of_nodup old hOld
  have hnm := mkFpMap_of_nodup new hNew
  have hres : matchScripts old new =
      ⟨p1Pairs old new ++ (phase2 (p1UnOld old new) (p1UnNew old new)).1,
       (p1UnOld old new).filter (fun s =>
         !(((p1Pairs old new ++ (phase2 (p1UnOld old new) (p1UnNew old new)).1).map
             (fun m => m.1.fingerprint)).contains s.fingerprint)),
       (phase2 (p1UnOld old new) (p1UnNew old new)).2.filter (fun s =>
         !(((p1Pairs old new ++ (phase2 (p1UnOld old new) (p1UnNew old new)).1).map
             (fun m => m.2.fingerprint)).contains s.fingerprint))⟩ := by
    simp only [matchScripts]
    rw [hes, hnm]
    rw [phase1_spec (old.map (fun s => (s.fingerprint, s)))
      (new.map (fun s => (s.fingerprint, s))) old new [] hkeys]
    dsimp only []
    simp only [List.nil_append]
    rfl
  rw [hres]
  dsimp only []
  have hMAmem : ∀ pr ∈ p1Pairs old new
      ++ (phase2 (p1UnOld old new) (p1UnNew old new)).1, pr.1 ∈ old ∧ pr.2 ∈ new := by
    intro pr hpr
    rcases List.mem_append.mp hpr with h1 | h2
    · obtain ⟨o, ho, hl, hf⟩ := (mem_p1Pairs_iff old new pr).mp h1
      obtain ⟨hn, _⟩ := alookup_fpPair_some new _ _ hl
      exact ⟨by rw [hf]; exact ho, hn⟩
    · constructor
      · exact ((mem_p1UnOld_iff old new pr.1).mp (ph2_fst_mem _ _ pr h2)).1
      · exact ((mem_p1UnNew_iff old new pr.2).mp (ph2_snd_mem _ _ pr h2)).1
  have hOldN : old.Nodup := List.Nodup.of_map _ hOld
  have hNewN : new.Nodup := List.Nodup.of_map _ hNew
  have hUO1N : (p1UnOld old new).Nodup := List.Nodup.filter _ hOldN
  have hUN1N : (p1UnNew old new).Nodup := List.Nodup.filter _ hNewN
  have hP1fstN : ((p1Pairs old new).map Prod.fst).Nodup := by
    rw [p1Pairs_map_fst]
    exact List.Nodup.filter _ hOldN
  have hP2fstN : ((phase2 (p1UnOld old new) (p1UnNew old new)).1.map Prod.fst).Nodup :=
    List.Nodup.sublist (ph2_fst_sublist _ _) hUO1N
  have hdisjF : ∀ x ∈ (p1Pairs old new).map Prod.fst,
      x ∉ (phase2 (p1UnOld old new) (p1UnNew old new)).1.map Prod.fst := by
    intro x hx1 hx2
    rw [p1Pairs_map_fst, List.mem_filter] at hx1
    have hxM : x.fingerprint ∈ matchedF (fpPair old) (fpPair new) := by
      have hx12 := hx1.2
      rw [alookup_isSome_iff, keys_fpPair, List.mem_map] at hx12
      obtain ⟨n, hn, hnf⟩ := hx12
      exact (mem_matchedF_iff old new x.fingerprint).mpr
        ⟨⟨x, hx1.1, rfl⟩, ⟨n, hn, hnf⟩⟩
    rw [List.mem_map] at hx2
    obtain ⟨pr, hpr, he⟩ := hx2
    have h3 := (mem_p1UnOld_iff old new pr.1).mp (ph2_fst_mem _ _ pr hpr)
    rw [he] at h3
    exact h3.2 hxM
  have hP1sndN : ((p1Pairs old new).map Prod.snd).Nodup := by
    apply List.Nodup.of_map ScriptTextM.fingerprint
    rw [List.map_map]
    have hcg : (p1Pairs old new).map (ScriptTextM.fingerprint ∘ Prod.snd)
        = (p1Pairs old new).map (ScriptTextM.fingerprint ∘ Prod.fst) := by
      apply List.map_congr_left
      intro pr hpr
      exact p1Pairs_snd_fp_eq_fst_fp old new pr hpr
    rw [hcg, ← List.map_map, p1Pairs_map_fst]
    exact List.Nodup.sublist (List.Sublist.map _ (List.filter_sublist _)) hOld
  have hP2sndN : ((phase2 (p1UnOld old new) (p1UnNew old new)).1.map Prod.snd).Nodup :=
    ph2_snd_nodup (p1UnOld old new) (p1UnNew old new) hUN1N
  have hdisjS : ∀ x ∈ (p1Pairs old new).map Prod.snd,
      x ∉ (phase2 (p1UnOld old new) (p1UnNew old new)).1.map Prod.snd := by
    intro x hx1 hx2
    rw [List.mem_map] at hx1
    obtain ⟨pr, hpr, he⟩ := hx1
    have hxM := p1Pairs_snd_fp_mem old new pr hpr
    rw [he] at hxM
    rw [List.mem_map] at hx2
    obtain ⟨pr2, hpr2, he2⟩ := hx2
    have h3 := (mem_p1UnNew_iff old new pr2.2).mp (ph2_snd_mem _ _ pr2 hpr2)
    rw [he2] at h3
    exact h3.2 hxM
  refine ⟨?_, ?_, hMAmem, ?_, ?_⟩
  · rw [List.map_append]
    exact List.Nodup.append hP1fstN hP2fstN (List.disjoint_left.mpr hdisjF)
  · rw [List.map_append]
    exact List.Nodup.append hP1sndN hP2sndN (List.disjoint_left.mpr hdisjS)
  · intro o ho
    by_cases hM : o.fingerprint ∈ matchedF (fpPair old) (fpPair new)
    · left
      constructor
      · obtain ⟨⟨o2, ho2, ho2f⟩, ⟨n, hn, hnf⟩⟩ :=
          (mem_matchedF_iff old new o.fingerprint).mp hM
        have hl : alookup (fpPair new) o.fingerprint = some n := by
          rw [← hnf]
          exact alookup_fpPair_self new n hNew hn
        have hpr : (o, n) ∈ p1Pairs old new :=
          (mem_p1Pairs_iff old new (o, n)).mpr ⟨o, ho, hl, rfl⟩
        exact List.mem_map.mpr ⟨(o, n), List.mem_append.mpr (Or.inl hpr), rfl⟩
      · intro hmem
        have h1 := ((mem_filter_not_contains _ _ o).mp hmem).1
        exact ((mem_p1UnOld_iff old new o).mp h1).2 hM
    · have hUO1 : o ∈ p1UnOld old new := (mem_p1UnOld_iff old new o).mpr ⟨ho, hM⟩
      by_cases hP2 : o ∈ (phase2 (p1UnOld old new) (p1UnNew old new)).1.map Prod.fst
      · left
        constructor
        · rw [List.map_append]
          exact List.mem_append.mpr (Or.inr hP2)
        · intro hmem
          obtain ⟨_, hnotc⟩ := (mem_filter_not_contains _ _ o).mp hmem
          obtain ⟨pr, hpr, hpe⟩ := List.mem_map.mp hP2
          exact hnotc (List.mem_map.mpr
            ⟨pr, List.mem_append.mpr (Or.inr hpr), by rw [hpe]⟩)
      · right
        constructor
        · intro hmem
          rw [List.map_append, List.mem_append] at hmem
          rcases hmem with h1 | h2
          · obtain ⟨pr, hpr, hpe⟩ := List.mem_map.mp h1
            have hfp := p1Pairs_fst_fp_mem old new pr hpr
            rw [hpe] at hfp
            exact hM hfp
          · exact hP2 h2
        · refine (mem_filter_not_contains _ _ o).mpr ⟨hUO1, ?_⟩
          intro hfp
          obtain ⟨pr, hpr, hpe⟩ := List.mem_map.mp hfp
          rcases List.mem_append.mp hpr with h1 | h2
          · have hfp2 := p1Pairs_fst_fp_mem old new pr h1
            rw [hpe] at hfp2
            exact hM hfp2
          · have hpr1 : pr.1 ∈ old :=
              ((mem_p1UnOld_iff old new pr.1).mp (ph2_fst_mem _ _ pr h2)).1
            have hpo : pr.1 = o := hInjO pr.1 hpr1 o ho hpe
            exact hP2 (List.mem_map.mpr ⟨pr, h2, hpo⟩)
  · intro n hn
    by_cases hM : n.fingerprint ∈ matchedF (fpPair old) (fpPair new)
    · left
      constructor
      · obtain ⟨⟨o, ho, hof⟩, ⟨n2, hn2, hn2f⟩⟩ :=
          (mem_matchedF_iff old new n.fingerprint).mp hM
        have hn2n : n2 = n := hInjN n2 hn2 n hn hn2f
        subst hn2n
        have hl : alookup (fpPair new) o.fingerprint = some n2 := by
          rw [hof, ← hn2f]
          exact alookup_fpPair_self new n2 hNew hn2
        have hpr : (o, n2) ∈ p1Pairs old new :=
          (mem_p1Pairs_iff old new (o, n2)).mpr ⟨o, ho, hl, rfl⟩
        exact List.mem_map.mpr ⟨(o, n2), List.mem_append.mpr (Or.inl hpr), rfl⟩
      · intro hmem
        have h1 := ((mem_filter_not_contains _ _ n).mp hmem).1
        have h2 := ph2_rest_sub _ _ n h1
        exact ((mem_p1UnNew_iff old new n).mp h2).2 hM
    · have hUN1 : n ∈ p1UnNew old new := (mem_p1UnNew_iff old new n).mpr ⟨hn, hM⟩
      by_cases hP2 : n ∈ (phase2 (p1UnOld old new) (p1UnNew old new)).1.map Prod.snd
      · left
        constructor
        · rw [List.map_append]
          exact List.mem_append.mpr (Or.inr hP2)
        · intro hmem
          obtain ⟨_, hnotc⟩ := (mem_filter_not_contains _ _ n).mp hmem
          obtain ⟨pr, hpr, hpe⟩ := List.mem_map.mp hP2
          exact hnotc (List.mem_map.mpr
            ⟨pr, List.mem_append.mpr (Or.inr hpr), by rw [hpe]⟩)
      · right
        constructor
        · intro hmem
          rw [List.map_append, List.mem_append] at hmem
          rcases hmem with h1 | h2
          · obtain ⟨pr, hpr, hpe⟩ := List.mem_map.mp h1
            have hfp := p1Pairs_snd_fp_mem old new pr hpr
            rw [hpe] at hfp
            exact hM hfp
          · exact hP2 h2
        · have hrest : n ∈ (phase2 (p1UnOld old new) (p1UnNew old new)).2 := by
            rcases ph2_pool_partition _ _ n hUN1 with h1 | h2
            · exact absurd h1 hP2
            · exact h2
          refine (mem_filter_not_contains _ _ n).mpr ⟨hrest, ?_⟩
          intro hfp
          obtain ⟨pr, hpr, hpe⟩ := List.mem_map.mp hfp
          rcases List.mem_append.mp hpr with h1 | h2
          · have hfp2 := p1Pairs_snd_fp_mem old new pr h1
            rw [hpe] at hfp2
            exact hM hfp2
          · have hpr2 : pr.2 ∈ new :=
              ((mem_p1UnNew_iff old new pr.2).mp (ph2_snd_mem _ _ pr h2)).1
            have hpn : pr.2 = n := hInjN pr.2 hpr2 n hn hpe
            exact hP2 (List.mem_map.mpr ⟨pr, h2, hpn⟩)

/-- Witness: two single-script sides sharing fingerprint "f"; the
partition law holds at this concrete input. -/
theorem matchScripts_partition_witness :
    ([exS1].map ScriptTextM.fingerprint).Nodup ∧
    ([exS2].map ScriptTextM.fingerprint).Nodup ∧
    (((matchScripts [exS1] [exS2]).matched.map Prod.fst).Nodup ∧
    ((matchScripts [exS1] [exS2]).matched.map Prod.snd).Nodup ∧
    (∀ pr ∈ (matchScripts [exS1] [exS2]).matched, pr.1 ∈ [exS1] ∧ pr.2 ∈ [exS2]) ∧
    (∀ o ∈ [exS1],
      (o ∈ (matchScripts [exS1] [exS2]).matched.map Prod.fst ∧
        o ∉ (matchScripts [exS1] [exS2]).unmatchedOld) ∨
      (o ∉ (matchScripts [exS1] [exS2]).matched.map Prod.fst ∧
        o ∈ (matchScripts [exS1] [exS2]).unmatchedOld)) ∧
    (∀ n ∈ [exS2],
      (n ∈ (matchScripts [exS1] [exS2]).matched.map Prod.snd ∧
        n ∉ (matchScripts [exS1] [exS2]).unmatchedNew) ∨
      (n ∉ (matchScripts [exS1] [exS2]).matched.map Prod.snd ∧
        n ∈ (matchScripts [exS1] [exS2]).unmatchedNew))) :=
  ⟨by simp, by simp,
   matchScripts_partition [exS1] [exS2] (by simp) (by simp)⟩
